import Mathlib

/-!
# Interface generator (`src/app/main.go`): embedding and verified properties

The program parses a directory of Go files, registers every struct type whose
declaration carries a marker comment, collects the methods declared on the
registered types, and writes one `<type>.interface.go` file per registered type.

The embedding below follows `main.go` function by function.  The Go standard
library is not part of the program: the syntax tree (`go/ast`) is given as data
types, the type printer (`go/printer`), `unicode.ToLower`, `filepath.Dir` and
`filepath.Join` are parameters (`Lib`), with one concrete instance (`goLib`) used to
evaluate the program on concrete inputs; `parser.ParseDir`, `imports.Process` and
`os.WriteFile` are the parameters of a run (`Sys`).  Go maps are association lists
with unique keys.  The order in which a `range` statement yields the entries of a map,
which Go leaves unspecified and takes anew for every `range`, is given in a run by
ranks of the environment (`Sys`), one rank for each `range` of the program; the
functions of the two passes take the files in the order they are handed.
-/

namespace GoIface

/-! ## Syntax trees (`go/ast`) -/

/-- Direction of a channel type (`ast.ChanDir`). -/
inductive ChanDir where
  | both
  | send
  | recv
  deriving DecidableEq, Repr

mutual
/-- Type expressions (`ast.Expr`), the fragment of `go/ast` type syntax used here.
`ArrayType` is the slice form (`Len == nil`). -/
inductive Expr where
  | Ident (Name : String)
  | StarExpr (X : Expr)
  | ParenExpr (X : Expr)
  | SelectorExpr (X : Expr) (Sel : String)
  | IndexExpr (X : Expr) (Index : Expr)
  | Ellipsis (Elt : Expr)
  | ArrayType (Elt : Expr)
  | MapType (Key : Expr) (Value : Expr)
  | ChanType (Dir : ChanDir) (Value : Expr)
  | FuncType (Params : List Field) (Results : List Field)
  | StructType (Fields : List Field)
  | InterfaceType (Methods : List Field)
/-- One entry of a field list (`ast.Field`): the declared names (none for an unnamed
parameter or result) and the type they share; in an interface type, a method is the
field of its name with its signature as type. -/
inductive Field where
  | mk (Names : List String) (Typ : Expr)
end

/-- The names of a field (`f.Names`, as the list of `name.Name`). -/
def Field.Names : Field → List String
  | .mk names _ => names

/-- The type of a field (`f.Type`). -/
def Field.Typ : Field → Expr
  | .mk _ typ => typ

/-- A possibly absent field list (`*ast.FieldList`): `none` is the nil pointer,
`some l` a list whose `List` is `l`. -/
abbrev FieldList := Option (List Field)

/-- Signature of a function declaration (`ast.FuncType` as used by `FuncDecl.Type`). -/
structure FuncType where
  Params : FieldList
  Results : FieldList

/-- One comment (`ast.Comment`); `Text` is the comment text including the leading
`//`, without the line end. -/
structure Comment where
  Text : String
  deriving DecidableEq, Repr

/-- A possibly absent comment group (`*ast.CommentGroup`), as its `List`. -/
abbrev CommentGroup := Option (List Comment)

/-- Keyword of a general declaration (`GenDecl.Tok`). -/
inductive Token where
  | IMPORT
  | CONST
  | TYPE
  | VAR
  deriving DecidableEq, Repr

/-- A type spec `Name Type` inside a type declaration (`ast.TypeSpec`), with its own
comment group `Doc`. -/
structure TypeSpec where
  Doc : CommentGroup
  Name : String
  Typ : Expr

/-- A general declaration (`ast.GenDecl`) over specs of type `σ`: `Doc` is the comment
group attached to the declaration as a whole, `Specs` the specs (one, or the members
of a parenthesized group). -/
structure GenDeclOf (σ : Type) where
  Doc : CommentGroup
  Tok : Token
  Specs : List σ

mutual
/-- A spec of a general declaration (`ast.Spec`); a value spec holds the names and the
initial values. -/
inductive Spec where
  | TypeSpec (s : TypeSpec)
  | ImportSpec (Path : String)
  | ValueSpec (Names : List String) (Values : List ValueExpr)
/-- Statements (`ast.Stmt`): a local declaration, a block (standing for every compound
statement), or a statement with the expression it holds (standing for every simple
statement). -/
inductive Stmt where
  | DeclStmt (Decl : GenDeclOf Spec)
  | BlockStmt (List : List Stmt)
  | ExprStmt (X : ValueExpr)
/-- Value expressions (`ast.Expr` in value position): identifiers, literals, function
literals with their body, and calls (standing for every compound expression). -/
inductive ValueExpr where
  | Ident (Name : String)
  | BasicLit (Value : String)
  | FuncLit (Typ : FuncType) (Body : List Stmt)
  | CallExpr (Fun : ValueExpr) (Args : List ValueExpr)
end

/-- A general declaration (`ast.GenDecl`). -/
abbrev GenDecl := GenDeclOf Spec

/-- A function declaration (`ast.FuncDecl`); `Recv` is nil for a plain function. -/
structure FuncDecl where
  Recv : FieldList
  Name : String
  Typ : FuncType
  Body : Option (List Stmt)

/-- A top-level declaration (`ast.Decl`). -/
inductive Decl where
  | GenDecl (d : GenDecl)
  | FuncDecl (d : FuncDecl)
  | BadDecl

/-- A parsed file (`ast.File`): package name and top-level declarations. -/
structure File where
  Name : String
  Decls : List Decl

/-- The nodes on which the two callbacks of `main` act. -/
inductive Node where
  | GenDecl (d : GenDecl)
  | FuncDecl (d : FuncDecl)

mutual
/-- Nodes met by `ast.Inspect` below a spec: those of the function literals among the
values of a value spec. -/
def Spec.nodes : Spec → List Node
  | .TypeSpec _ => []
  | .ImportSpec _ => []
  | .ValueSpec _ values => exprsNodes values
/-- Nodes met by `ast.Inspect` below a list of specs. -/
def specsNodes : List Spec → List Node
  | [] => []
  | s :: ss => s.nodes ++ specsNodes ss
/-- Nodes met by `ast.Inspect` at and below a statement, in traversal (depth-first)
order. -/
def Stmt.nodes : Stmt → List Node
  | .DeclStmt ⟨doc, tok, specs⟩ =>
    Node.GenDecl { Doc := doc, Tok := tok, Specs := specs } :: specsNodes specs
  | .BlockStmt l => stmtsNodes l
  | .ExprStmt x => x.nodes
/-- Nodes met by `ast.Inspect` below a statement list. -/
def stmtsNodes : List Stmt → List Node
  | [] => []
  | s :: ss => s.nodes ++ stmtsNodes ss
/-- Nodes met by `ast.Inspect` below a value expression: those of the bodies of its
function literals. -/
def ValueExpr.nodes : ValueExpr → List Node
  | .Ident _ => []
  | .BasicLit _ => []
  | .FuncLit _ body => stmtsNodes body
  | .CallExpr f args => f.nodes ++ exprsNodes args
/-- Nodes met by `ast.Inspect` below a list of value expressions. -/
def exprsNodes : List ValueExpr → List Node
  | [] => []
  | x :: xs => x.nodes ++ exprsNodes xs
end

/-- Nodes met by `ast.Inspect` at and below a top-level declaration. -/
def Decl.nodes : Decl → List Node
  | .GenDecl d => Node.GenDecl d :: specsNodes d.Specs
  | .FuncDecl d => Node.FuncDecl d :: (match d.Body with
      | none => []
      | some b => stmtsNodes b)
  | .BadDecl => []

/-- The declaration nodes of a file in the order `ast.Inspect(file, f)` hands them to
`f` (the callbacks of `main` return `true` on every node, so the whole tree is
walked; nodes of other kinds leave both callbacks without effect). -/
def File.nodes (file : File) : List Node :=
  file.Decls.flatMap Decl.nodes

/-! ## Go maps -/

/-- A Go `map[string]V` as an association list with unique keys. -/
abbrev GoMap (V : Type) := List (String × V)

/-- Lookup `m[k]` with the presence flag (`v, ok := m[k]`). -/
def GoMap.get? {V : Type} : GoMap V → String → Option V
  | [], _ => none
  | (k1, v) :: rest, k => if k1 = k then some v else GoMap.get? rest k

/-- Lookup `m[k]` yielding the zero value `d` for a missing key. -/
def GoMap.getD {V : Type} (m : GoMap V) (k : String) (d : V) : V :=
  match m.get? k with
  | some v => v
  | none => d

/-- Assignment `m[k] = v`: overwrite the entry of `k`, or add one. -/
def GoMap.set {V : Type} : GoMap V → String → V → GoMap V
  | [], k, v => [(k, v)]
  | (k1, v1) :: rest, k, v =>
    if k1 = k then (k1, v) :: rest else (k1, v1) :: GoMap.set rest k v

/-- The keys of a map. -/
def GoMap.keys {V : Type} (m : GoMap V) : List String :=
  m.map Prod.fst

/-! ## Library functions -/

/-- `strings.Contains(s, substr)` on code points. -/
def containsChars (sub : List Char) : List Char → Bool
  | [] => sub.isEmpty
  | c :: cs => sub.isPrefixOf (c :: cs) || containsChars sub cs

/-- `strings.Contains(s, substr)`. -/
def stringsContains (s substr : String) : Bool :=
  containsChars substr.data s.data

/-- `strings.Index(s, sep)`: position of the first occurrence of `sep`, if any. -/
def indexChars (sep : List Char) : List Char → Option Nat
  | [] => if sep.isEmpty then some 0 else none
  | c :: cs =>
    if sep.isPrefixOf (c :: cs) then some 0
    else (indexChars sep cs).map (· + 1)

/-- The loop of `strings.Split` for a non-empty separator: cut at the first
occurrence, continue behind it; `n` bounds the number of cuts. -/
def genSplit (sep : List Char) : Nat → List Char → List (List Char)
  | 0, s => [s]
  | n + 1, s =>
    match indexChars sep s with
    | none => [s]
    | some m => s.take m :: genSplit sep n (s.drop (m + sep.length))

/-- `strings.Split(s, sep)` for a non-empty `sep` (the number of cuts is bounded by
the length of `s`, which is at least the number of occurrences of `sep`). -/
def stringsSplit (s sep : String) : List String :=
  (genSplit sep.data s.length s.data).map String.mk

/-- `unicode.ToLower` on one code point: fixed on ASCII, given by `lowerNonASCII`
elsewhere. -/
def toLowerRune (lowerNonASCII : Char → Char) (c : Char) : Char :=
  if c.toNat < 128 then c.toLower else lowerNonASCII c

/-- `strings.ToLower(s)`: every code point mapped by `unicode.ToLower`. -/
def stringsToLower (lowerNonASCII : Char → Char) (s : String) : String :=
  String.mk (s.data.map (toLowerRune lowerNonASCII))

/-- The library functions the program calls and that are not modelled structurally:
the `go/printer` rendering of a type expression, `unicode.ToLower` outside ASCII,
`filepath.Dir` and `filepath.Join`. -/
structure Lib where
  printExpr : Expr → String
  lowerNonASCII : Char → Char
  dir : String → String
  join : String → String → String

/-! ## The program -/

/-- Record of a tagged struct (`StructInfo`, lines 16-19). -/
structure StructInfo where
  InterfaceName : String
  SourceFile : String
  deriving DecidableEq, Repr

/-- Receiver type name (`recvName`, lines 119-129). -/
def recvName (expr : Expr) : String :=
  match expr with
  | .StarExpr x =>
    match x with
    | .Ident name => name
    | _ => ""
  | .Ident name => name
  | _ => ""

/-- The loop over `fl.List` that builds `parts` (lines 137-148, repeated verbatim at
lines 158-169): a field with names appends one `name type` entry per name, a field
without names appends its printed type. -/
def fieldParts (pr : Expr → String) (list : List Field) : List String :=
  list.foldl (fun parts f =>
    let typeStr := pr f.Typ
    if f.Names.length > 0 then
      f.Names.foldl (fun parts name => parts ++ [name ++ " " ++ typeStr]) parts
    else
      parts ++ [typeStr]) []

/-- Rendering of a parameter list (`formatFieldList`, lines 132-150). -/
def formatFieldList (pr : Expr → String) (fl : FieldList) : String :=
  match fl with
  | none => "()"
  | some list => "(" ++ ", ".intercalate (fieldParts pr list) ++ ")"

/-- Rendering of a result list (`formatResultList`, lines 153-175). -/
def formatResultList (pr : Expr → String) (fl : FieldList) : String :=
  match fl with
  | none => ""
  | some list =>
    if list.length = 0 then ""
    else
      let parts := fieldParts pr list
      if parts.length = 1 ∧ stringsContains (parts.headD "") " " = false then
        " " ++ parts.headD ""
      else
        " (" ++ ", ".intercalate parts ++ ")"

/-- The map `structsToInterfaces` (line 42). -/
abbrev TaggedMap := GoMap StructInfo

/-- The map `methods` (line 44). -/
abbrev MethodMap := GoMap (List FuncDecl)

/-- Body of the loop over `gen.Specs` (lines 53-72): a type spec of struct type is
registered once for every comment of `gen.Doc` whose text equals the marker. -/
def scanSpec (markerComment filename : String) (gen : GenDecl)
    (structsToInterfaces : TaggedMap) (spec : Spec) : TaggedMap :=
  match spec with
  | .TypeSpec typeSpec =>
    match typeSpec.Typ with
    | .StructType _ =>
      match gen.Doc with
      | some list =>
        list.foldl (fun m comment =>
          if comment.Text = markerComment then
            m.set typeSpec.Name
              { InterfaceName := typeSpec.Name ++ "Interface", SourceFile := filename }
          else m) structsToInterfaces
      | none => structsToInterfaces
    | _ => structsToInterfaces
  | _ => structsToInterfaces

/-- Callback of the first pass (lines 48-74) on one node. -/
def scanNode (markerComment filename : String) (structsToInterfaces : TaggedMap)
    (n : Node) : TaggedMap :=
  match n with
  | .GenDecl gen =>
    if gen.Tok ≠ Token.TYPE then structsToInterfaces
    else gen.Specs.foldl (scanSpec markerComment filename gen) structsToInterfaces
  | _ => structsToInterfaces

/-- First pass over one file (`ast.Inspect(file, ...)`, line 48). -/
def scanFile (markerComment filename : String) (file : File)
    (structsToInterfaces : TaggedMap) : TaggedMap :=
  file.nodes.foldl (scanNode markerComment filename) structsToInterfaces

/-- First pass over the files of a package (lines 47-75), in the given order. -/
def scanFiles (markerComment : String) (files : List (String × File))
    (structsToInterfaces : TaggedMap) : TaggedMap :=
  files.foldl (fun m p => scanFile markerComment p.1 p.2 m) structsToInterfaces

/-- Callback of the second pass (lines 79-93) on one node; `none` is the run-time
panic of `fn.Recv.List[0]` on an empty receiver list. -/
def collectNode (structsToInterfaces : TaggedMap) (methods : MethodMap)
    (n : Node) : Option MethodMap :=
  match n with
  | .FuncDecl fn =>
    match fn.Recv with
    | none => some methods
    | some [] => none
    | some (f0 :: _) =>
      let recvType := recvName f0.Typ
      if recvType = "" then some methods
      else
        match structsToInterfaces.get? recvType with
        | some _ => some (methods.set recvType (methods.getD recvType [] ++ [fn]))
        | none => some methods
  | _ => some methods

/-- The second-pass callback run over a node list. -/
def collectNodes (structsToInterfaces : TaggedMap) :
    MethodMap → List Node → Option MethodMap
  | methods, [] => some methods
  | methods, n :: ns =>
    match collectNode structsToInterfaces methods n with
    | none => none
    | some methods1 => collectNodes structsToInterfaces methods1 ns

/-- Second pass over one file (`ast.Inspect(file, ...)`, line 79). -/
def collectFile (structsToInterfaces : TaggedMap) (methods : MethodMap)
    (file : File) : Option MethodMap :=
  collectNodes structsToInterfaces methods file.nodes

/-- Second pass over the files of a package (lines 78-94), in the given order. -/
def collectFiles (structsToInterfaces : TaggedMap) :
    MethodMap → List File → Option MethodMap
  | methods, [] => some methods
  | methods, file :: rest =>
    match collectFile structsToInterfaces methods file with
    | none => none
    | some methods1 => collectFiles structsToInterfaces methods1 rest

/-- Output file name (second argument of `filepath.Join`, line 98). -/
def ifaceFileName (L : Lib) (structInfo : StructInfo) : String :=
  (stringsSplit (stringsToLower L.lowerNonASCII structInfo.InterfaceName)
    "interface").headD "" ++ ".interface.go"

/-- Output path `ifacePath` (line 98). -/
def ifacePath (L : Lib) (structInfo : StructInfo) : String :=
  L.join (L.dir structInfo.SourceFile) (ifaceFileName L structInfo)

/-- The member line written for one method (line 104). -/
def memberLine (pr : Expr → String) (fn : FuncDecl) : String :=
  "\t" ++ fn.Name ++ formatFieldList pr fn.Typ.Params
    ++ formatResultList pr fn.Typ.Results ++ "\n"

/-- The buffer `buf` as handed to `imports.Process` (lines 99-106): the writes to the
buffer, in order. -/
def assemble (pr : Expr → String) (pkgName : String) (structInfo : StructInfo)
    (fns : List FuncDecl) : String :=
  let buf := ""
  let buf := buf ++ ("package " ++ pkgName ++ "\n\n")
  let buf := buf ++ ("type " ++ structInfo.InterfaceName ++ " interface \x7b\n")
  let buf := fns.foldl (fun buf fn => buf ++ memberLine pr fn) buf
  buf ++ "\x7d\n"

/-- One round of the loop over `structsToInterfaces` (lines 97-106): the output path
and the assembled text of one tagged type. -/
def generateOne (L : Lib) (pkgName : String) (methods : MethodMap)
    (entry : String × StructInfo) : String × String :=
  (ifacePath L entry.2,
    assemble L.printExpr pkgName entry.2 (methods.getD entry.1 []))

/-- The loop over `structsToInterfaces` (lines 97-114) up to the call of
`imports.Process`: path and assembled text for every tagged type. -/
def generate (L : Lib) (pkgName : String) (structsToInterfaces : TaggedMap)
    (methods : MethodMap) : List (String × String) :=
  structsToInterfaces.map (generateOne L pkgName methods)

/-- The body of the loop over packages (lines 40-115) up to the calls of
`imports.Process`, for the files of one package, when every `range` yields the
entries in the order listed: `files` lists `pkg.Files` in the order of both passes and
the tagged types are taken in the order of the association list (`runPackage` takes
the three orders from the environment).  The value `none` is the panic of the second
pass. -/
def processPackage (L : Lib) (markerComment pkgName : String)
    (files : List (String × File)) : Option (List (String × String)) :=
  let structsToInterfaces := scanFiles markerComment files []
  match collectFiles structsToInterfaces [] (files.map Prod.snd) with
  | none => none
  | some methods => some (generate L pkgName structsToInterfaces methods)

/-! ## A concrete library instance -/

/-- Keyword of a channel type as printed by `go/printer`. -/
def chanKeyword : ChanDir → String
  | .both => "chan"
  | .send => "chan<-"
  | .recv => "<-chan"

mutual
/-- Model of `printer.Fprint` on a type expression, in the one-line layout of
`go/printer`.  (`go/printer` breaks a struct or interface type with several entries over
several lines; that layout is not reproduced, such types are not printed below.) -/
def printExpr : Expr → String
  | .Ident n => n
  | .StarExpr x => "*" ++ printExpr x
  | .ParenExpr x => "(" ++ printExpr x ++ ")"
  | .SelectorExpr x sel => printExpr x ++ "." ++ sel
  | .IndexExpr x i => printExpr x ++ "[" ++ printExpr i ++ "]"
  | .Ellipsis elt => "..." ++ printExpr elt
  | .ArrayType elt => "[]" ++ printExpr elt
  | .MapType k v => "map[" ++ printExpr k ++ "]" ++ printExpr v
  | .ChanType dir v => chanKeyword dir ++ " " ++ printExpr v
  | .FuncType ps rs =>
    "func(" ++ printFields ", " ps ++ ")" ++
      (match rs with
       | [] => ""
       | [.mk [] t] => " " ++ printExpr t
       | f :: fs => " (" ++ printFields ", " (f :: fs) ++ ")")
  | .StructType fs =>
    match fs with
    | [] => "struct\x7b\x7d"
    | f :: rest => "struct\x7b " ++ printFields "; " (f :: rest) ++ " \x7d"
  | .InterfaceType ms =>
    match ms with
    | [] => "interface\x7b\x7d"
    | m :: rest => "interface\x7b " ++ printMethods (m :: rest) ++ " \x7d"
/-- A method as printed inside an interface type: the name followed by the signature;
an entry without name is an embedded type. -/
def printMethod : Field → String
  | .mk [n] (.FuncType ps rs) =>
    n ++ "(" ++ printFields ", " ps ++ ")" ++
      (match rs with
       | [] => ""
       | [.mk [] t] => " " ++ printExpr t
       | f :: fs => " (" ++ printFields ", " (f :: fs) ++ ")")
  | .mk _ t => printExpr t
/-- Methods separated by `; `. -/
def printMethods : List Field → String
  | [] => ""
  | [m] => printMethod m
  | m :: k :: rest => printMethod m ++ "; " ++ printMethods (k :: rest)
/-- A field as printed inside a signature or struct: `a, b T`, or `T` without names. -/
def printField : Field → String
  | .mk [] t => printExpr t
  | .mk (n :: ns) t => ", ".intercalate (n :: ns) ++ " " ++ printExpr t
/-- Fields separated by `sep`. -/
def printFields (sep : String) : List Field → String
  | [] => ""
  | [f] => printField f
  | f :: g :: rest => printField f ++ sep ++ printFields sep (g :: rest)
end

/-- The elements of a slash-separated path, empty elements included. -/
def splitSlash : List Char → List (List Char)
  | [] => [[]]
  | c :: cs =>
    if c = '/' then [] :: splitSlash cs
    else
      match splitSlash cs with
      | [] => [[c]]
      | elem :: rest => (c :: elem) :: rest

/-- One step of `filepath.Clean`: `kept` holds the elements kept so far, the last one
first.  An empty element and `.` are dropped; `..` removes the element before it, is
dropped at the root, and is kept at the start of a relative path. -/
def cleanStep (rooted : Bool) (kept : List (List Char)) (elem : List Char) :
    List (List Char) :=
  if elem = [] ∨ elem = ['.'] then kept
  else if elem = ['.', '.'] then
    match kept with
    | [] => if rooted then [] else [elem]
    | top :: below => if top = ['.', '.'] then elem :: top :: below else below
  else elem :: kept

/-- Elements joined by the separator. -/
def joinSlash : List (List Char) → List Char
  | [] => []
  | [e] => e
  | e :: f :: rest => e ++ '/' :: joinSlash (f :: rest)

/-- What `joinSlash` puts before a last element: nothing, or the elements before it
each followed by the separator. -/
def joinBefore (l : List (List Char)) : List Char :=
  match l with
  | [] => []
  | e :: rest => joinSlash (e :: rest) ++ ['/']

/-- `filepath.Clean` on the characters of a slash-separated path. -/
def cleanChars : List Char → List Char
  | [] => ['.']
  | c :: cs =>
    if c = '/' then
      '/' :: joinSlash ((splitSlash (c :: cs)).foldl (cleanStep true) []).reverse
    else if (splitSlash (c :: cs)).foldl (cleanStep false) [] = [] then ['.']
    else joinSlash ((splitSlash (c :: cs)).foldl (cleanStep false) []).reverse

/-- Model of `filepath.Clean` (slash-separated paths). -/
def filepathClean (path : String) : String :=
  String.mk (cleanChars path.data)

/-- Model of `filepath.Dir`: the path up to and including its last separator,
cleaned. -/
def filepathDir (path : String) : String :=
  filepathClean (String.mk (path.data.reverse.dropWhile (fun c => c != '/')).reverse)

/-- Model of `filepath.Join(dir, name)`: the non-empty elements joined by the
separator, cleaned; the empty string when both are empty. -/
def filepathJoin (dir name : String) : String :=
  if dir ≠ "" then filepathClean (dir ++ "/" ++ name)
  else if name ≠ "" then filepathClean name
  else ""

/-- The concrete library used to evaluate the program: the printer model, the
identity outside ASCII for `unicode.ToLower` (the inputs evaluated are ASCII), and
the path models. -/
def goLib : Lib where
  printExpr := printExpr
  lowerNonASCII := id
  dir := filepathDir
  join := filepathJoin

/-! ## Sample inputs -/

/-- The default marker (line 28). -/
def defaultMarker : String := "// +generate_interface"

/-- The declaration `// +generate_interface` over `type Widget struct{ n int }`. -/
def widgetDecl : Decl :=
  .GenDecl { Doc := some [{ Text := "// +generate_interface" }], Tok := .TYPE,
             Specs := [.TypeSpec { Doc := none, Name := "Widget",
                                   Typ := .StructType [.mk ["n"] (.Ident "int")] }] }

/-- The method `func (w *Widget) Name() string { return "" }`. -/
def widgetName : FuncDecl :=
  { Recv := some [.mk ["w"] (.StarExpr (.Ident "Widget"))], Name := "Name",
    Typ := { Params := some [], Results := some [.mk [] (.Ident "string")] },
    Body := some [.ExprStmt (.BasicLit "0")] }

/-- The package of the scenario: the type in `pkg/widget.go`, its method in
`pkg/methods.go`. -/
def widgetFiles : List (String × File) :=
  [("pkg/widget.go", { Name := "pkg", Decls := [widgetDecl] }),
   ("pkg/methods.go", { Name := "pkg", Decls := [.FuncDecl widgetName] })]

/-- The method `func (t *T) Foo(a, b int) (string, error)`. -/
def fooDecl : FuncDecl :=
  { Recv := some [.mk ["t"] (.StarExpr (.Ident "T"))], Name := "Foo",
    Typ := { Params := some [.mk ["a", "b"] (.Ident "int")],
             Results := some [.mk [] (.Ident "string"), .mk [] (.Ident "error")] },
    Body := some [.ExprStmt (.BasicLit "0")] }

/-- The method `func (t *T) Bar() error`. -/
def barDecl : FuncDecl :=
  { Recv := some [.mk ["t"] (.StarExpr (.Ident "T"))], Name := "Bar",
    Typ := { Params := some [], Results := some [.mk [] (.Ident "error")] },
    Body := some [.ExprStmt (.BasicLit "0")] }

/-- The result list of `func (t *T) Events() chan int`. -/
def chanResult : FieldList :=
  some [.mk [] (.ChanType .both (.Ident "int"))]

/-- The result list `(err error)`. -/
def namedResult : FieldList :=
  some [.mk ["err"] (.Ident "error")]

/-- A package with the tagged struct `InterfaceBuilder` in `pkg/builder.go` and no
method. -/
def builderFiles : List (String × File) :=
  [("pkg/builder.go",
    { Name := "pkg",
      Decls := [.GenDecl { Doc := some [{ Text := "// +generate_interface" }], Tok := .TYPE,
                           Specs := [.TypeSpec { Doc := none, Name := "InterfaceBuilder",
                                                 Typ := .StructType [] }] }] })]

/-- The method `func (w Widget) Name() string`, a second declaration of `Name` on
`Widget`, with a value receiver. -/
def widgetNameAgain : FuncDecl :=
  { Recv := some [.mk ["w"] (.Ident "Widget")], Name := "Name",
    Typ := { Params := some [], Results := some [.mk [] (.Ident "string")] },
    Body := some [.ExprStmt (.BasicLit "0")] }

/-- The method `func (g *Gadget) Size() int` on a type that is not tagged. -/
def gadgetSize : FuncDecl :=
  { Recv := some [.mk ["g"] (.StarExpr (.Ident "Gadget"))], Name := "Size",
    Typ := { Params := some [], Results := some [.mk [] (.Ident "int")] },
    Body := some [.ExprStmt (.BasicLit "0")] }

/-- The function `func helper()`, without receiver. -/
def helperFunc : FuncDecl :=
  { Recv := none, Name := "helper",
    Typ := { Params := some [], Results := none },
    Body := some [.ExprStmt (.BasicLit "0")] }

/-- A package that declares `Name` on `Widget` twice, in two files, next to a method
of an untagged type and a plain function. -/
def dupFiles : List (String × File) :=
  [("pkg/widget.go",
    { Name := "pkg", Decls := [widgetDecl, .FuncDecl gadgetSize, .FuncDecl widgetName] }),
   ("pkg/more.go",
    { Name := "pkg", Decls := [.FuncDecl helperFunc, .FuncDecl widgetNameAgain] })]

/-- The file of the registration examples: a tagged struct `Tagged`, a struct `Plain`
without comment, a tagged non-struct `Alias`, and a struct `Near` whose comment is the
marker followed by one blank. -/
def mixedFile : File :=
  { Name := "pkg",
    Decls := [
      .GenDecl { Doc := some [{ Text := "// +generate_interface" }], Tok := .TYPE,
                 Specs := [.TypeSpec { Doc := none, Name := "Tagged",
                                       Typ := .StructType [] }] },
      .GenDecl { Doc := none, Tok := .TYPE,
                 Specs := [.TypeSpec { Doc := none, Name := "Plain",
                                       Typ := .StructType [] }] },
      .GenDecl { Doc := some [{ Text := "// +generate_interface" }], Tok := .TYPE,
                 Specs := [.TypeSpec { Doc := none, Name := "Alias",
                                       Typ := .Ident "int" }] },
      .GenDecl { Doc := some [{ Text := "// +generate_interface " }], Tok := .TYPE,
                 Specs := [.TypeSpec { Doc := none, Name := "Near",
                                       Typ := .StructType [] }] }] }

/-! ## Reference definitions

Definitions that follow the wording of the specification, for comparison with the
program. -/

/-- Concatenation of a list of strings, in list order. -/
def concatStrings : List String → String
  | [] => ""
  | s :: rest => s ++ concatStrings rest

/-- The entries one field contributes to a rendered list: `name type` for each of its
names, or the bare `type` when it has none. -/
def fieldEntries (pr : Expr → String) (f : Field) : List String :=
  match f.Names with
  | [] => [pr f.Typ]
  | n :: ns => (n :: ns).map (fun name => name ++ " " ++ pr f.Typ)

/-- The entries of a field list: those of its fields, in order. -/
def listEntries (pr : Expr → String) (list : List Field) : List String :=
  list.flatMap (fieldEntries pr)

/-- Receiver name by the specification: an identifier gives its name, a pointer to an
identifier gives that name, everything else the empty string. -/
def recvNameRef : Expr → String
  | .Ident n => n
  | .StarExpr (.Ident n) => n
  | _ => ""

/-- The top-level function declarations of a file, in declaration order. -/
def File.funcDecls (file : File) : List FuncDecl :=
  file.Decls.filterMap (fun d =>
    match d with
    | .FuncDecl fn => some fn
    | _ => none)

/-- Whether a function declaration has a receiver whose type resolves to `T`. -/
def resolvesTo (T : String) (fn : FuncDecl) : Bool :=
  match fn.Recv with
  | some (f0 :: _) => decide (recvName f0.Typ = T)
  | _ => false

/-- The function declaration of a node, if it is one. -/
def Node.funcDecl? : Node → Option GoIface.FuncDecl
  | .FuncDecl fn => some fn
  | .GenDecl _ => none

/-! ## The run (`main`, lines 21-116) -/

/-- A parsed package (`ast.Package`): its name and the entries of its file map
(`pkg.Files`), with distinct paths. -/
structure Package where
  Name : String
  Files : List (String × File)

/-- Insertion of `a` into a list ordered by `rank`, before the first element whose rank
is not smaller. -/
def insertByRank {α : Type} (rank : α → Nat) (a : α) : List α → List α
  | [] => [a]
  | b :: l => if rank a ≤ rank b then a :: b :: l else b :: insertByRank rank a l

/-- The entries of a map in the order a `range` statement yields them.  Go leaves this
order unspecified and takes a new one for every `range`: it is modelled by a rank of
the keys, an arbitrary function given with the environment, the entries being handed
out by increasing rank. -/
def sortByRank {α : Type} (rank : α → Nat) (l : List α) : List α :=
  l.foldr (insertByRank rank) []

/-- The environment of a run: `parser.ParseDir` on the root (the packages, listed in
processing order, or the error it returns), `imports.Process` on an output path and a
text, `os.WriteFile` on a path and a content (the error it returns, if any), and the
ranks that fix the order of the three `range` statements over maps: over `pkg.Files`
in the first pass (line 47) and in the second pass (line 78), by file path, and over
`structsToInterfaces` (line 97), by type name. -/
structure Sys where
  parseDir : String → Except String (List Package)
  importsProcess : String → String → Except String String
  writeFile : String → String → Option String
  fileRank1 : String → Nat
  fileRank2 : String → Nat
  typeRank : String → Nat

/-- How a run ends: with the usage message and exit code 1, with a panic, or by
reaching the end of `main`. -/
inductive Outcome where
  | usage
  | panicked (err : String)
  | finished
  deriving DecidableEq, Repr

/-- What a run did: the files written (path and content of every successful
`os.WriteFile`, in order) and how it ended. -/
structure RunResult where
  written : List (String × String)
  outcome : Outcome
  deriving DecidableEq, Repr

/-- The loop over `structsToInterfaces` (lines 97-114) with its effects, on the
entries in the order the `range` statement yields them: an error of `imports.Process`
panics (lines 109-111); the value returned by `os.WriteFile` is dropped (line 112), so
the loop goes on after a failed write. -/
def writeLoop (S : Sys) (L : Lib) (pkgName : String) (methods : MethodMap) :
    List (String × StructInfo) → List (String × String) → RunResult
  | [], written => { written := written, outcome := .finished }
  | entry :: rest, written =>
    match S.importsProcess (generateOne L pkgName methods entry).1
        (generateOne L pkgName methods entry).2 with
    | .error err => { written := written, outcome := .panicked err }
    | .ok formatted =>
      match S.writeFile (generateOne L pkgName methods entry).1 formatted with
      | none =>
        writeLoop S L pkgName methods rest
          (written ++ [((generateOne L pkgName methods entry).1, formatted)])
      | some _ => writeLoop S L pkgName methods rest written

/-- The body of the loop over packages (lines 41-114): both maps start empty for
every package, and each of the three `range` statements takes the order of its own
rank. -/
def runPackage (S : Sys) (L : Lib) (markerComment : String) (pkg : Package)
    (written : List (String × String)) : RunResult :=
  let structsToInterfaces :=
    scanFiles markerComment (sortByRank (fun p => S.fileRank1 p.1) pkg.Files) []
  match collectFiles structsToInterfaces []
      ((sortByRank (fun p => S.fileRank2 p.1) pkg.Files).map Prod.snd) with
  | none => { written := written, outcome := .panicked "index out of range" }
  | some methods =>
    writeLoop S L pkg.Name methods
      (sortByRank (fun e => S.typeRank e.1) structsToInterfaces) written

/-- The loop over the packages (lines 40-115). -/
def runPackages (S : Sys) (L : Lib) (markerComment : String) :
    List Package → List (String × String) → RunResult
  | [], written => { written := written, outcome := .finished }
  | pkg :: rest, written =>
    match runPackage S L markerComment pkg written with
    | { written := written1, outcome := .finished } =>
      runPackages S L markerComment rest written1
    | r => r

/-- The program (`main`, lines 21-116) on the argument vector `os.Args`. -/
def main (S : Sys) (L : Lib) (args : List String) : RunResult :=
  if args.length < 2 then { written := [], outcome := .usage }
  else
    let root := args.getD 1 ""
    let markerComment := if args.length > 2 then args.getD 2 "" else "// +generate_interface"
    match S.parseDir root with
    | .error err => { written := [], outcome := .panicked err }
    | .ok pkgs => runPackages S L markerComment pkgs []

/-! ## Further sample inputs -/

/-- An environment in which the directory `pkg` holds the package of `widgetFiles`,
`imports.Process` returns the text it is given (the texts of the examples are
formatted and need no import), every write succeeds, and every `range` takes the
entries in the order they are listed (all ranks equal). -/
def okSys : Sys where
  parseDir := fun root =>
    if root = "pkg" then .ok [{ Name := "pkg", Files := widgetFiles }]
    else .error ("open " ++ root ++ ": no such file or directory")
  importsProcess := fun _ src => .ok src
  writeFile := fun _ _ => none
  fileRank1 := fun _ => 0
  fileRank2 := fun _ => 0
  typeRank := fun _ => 0

/-- The environment `okSys` with a directory that cannot be written: every
`os.WriteFile` returns an error. -/
def readOnlySys : Sys where
  parseDir := okSys.parseDir
  importsProcess := okSys.importsProcess
  writeFile := fun path _ => some ("open " ++ path ++ ": permission denied")
  fileRank1 := okSys.fileRank1
  fileRank2 := okSys.fileRank2
  typeRank := okSys.typeRank

/-- The environment `okSys` with an `imports.Process` that fails on every text. -/
def brokenImportsSys : Sys where
  parseDir := okSys.parseDir
  importsProcess := fun path _ => .error (path ++ ":1:1: expected declaration")
  writeFile := okSys.writeFile
  fileRank1 := okSys.fileRank1
  fileRank2 := okSys.fileRank2
  typeRank := okSys.typeRank

/-- The syntax tree of the text `package pkg`, `type WidgetInterface interface {}`
(the text written for `Widget` without methods). -/
def widgetInterfaceEmpty : File :=
  { Name := "pkg",
    Decls := [.GenDecl { Doc := none, Tok := .TYPE,
                         Specs := [.TypeSpec { Doc := none, Name := "WidgetInterface",
                                               Typ := .InterfaceType [] }] }] }

/-- The syntax tree of the text written for `Widget` with its method `Name() string`. -/
def widgetInterfaceNamed : File :=
  { Name := "pkg",
    Decls := [.GenDecl { Doc := none, Tok := .TYPE,
                         Specs := [.TypeSpec { Doc := none, Name := "WidgetInterface",
                                               Typ := .InterfaceType
                                                 [.mk ["Name"]
                                                   (.FuncType [] [.mk [] (.Ident "string")])] }] }] }

/-- The syntax tree of the text `package pkg`, `type widgetInterface interface {}`
(the text written for `widget` without methods). -/
def lowerWidgetInterfaceEmpty : File :=
  { Name := "pkg",
    Decls := [.GenDecl { Doc := none, Tok := .TYPE,
                         Specs := [.TypeSpec { Doc := none, Name := "widgetInterface",
                                               Typ := .InterfaceType [] }] }] }

/-- The syntax trees the parser gives for the texts written in the examples (any other
text is not parsed in them). -/
def parseSample (_path text : String) : File :=
  if text = "package pkg\n\ntype WidgetInterface interface \x7b\n\x7d\n" then widgetInterfaceEmpty
  else if text = "package pkg\n\ntype widgetInterface interface \x7b\n\x7d\n" then
    lowerWidgetInterfaceEmpty
  else if text = "package pkg\n\ntype WidgetInterface interface \x7b\n\tName() string\n\x7d\n" then
    widgetInterfaceNamed
  else { Name := "", Decls := [.BadDecl] }

/-- The method `func (w *Widget) Size() int`. -/
def widgetSize : FuncDecl :=
  { Recv := some [.mk ["w"] (.StarExpr (.Ident "Widget"))], Name := "Size",
    Typ := { Params := some [], Results := some [.mk [] (.Ident "int")] },
    Body := some [.ExprStmt (.BasicLit "0")] }

/-- A package `other` that declares a method on `Widget` without tagging `Widget`. -/
def otherPackage : Package :=
  { Name := "other",
    Files := [("pkg/other.go", { Name := "other", Decls := [.FuncDecl widgetSize] })] }

/-- The package `pkg` of `widgetFiles`. -/
def widgetPackage : Package :=
  { Name := "pkg", Files := widgetFiles }

/-- The declaration `// +generate_interface` over `type widget struct{}`. -/
def lowerWidgetDecl : Decl :=
  .GenDecl { Doc := some [{ Text := "// +generate_interface" }], Tok := .TYPE,
             Specs := [.TypeSpec { Doc := none, Name := "widget",
                                   Typ := .StructType [] }] }

/-- A package that tags the two distinct types `Widget` and `widget`. -/
def caseFiles : List (String × File) :=
  [("pkg/a.go", { Name := "pkg", Decls := [widgetDecl] }),
   ("pkg/b.go", { Name := "pkg", Decls := [lowerWidgetDecl] })]

/-- A package that tags `Widget` in `pkg/a.go` and again in `pkg/b.go`, followed by a
file without type declaration. -/
def twiceFiles : List (String × File) :=
  [("pkg/a.go", { Name := "pkg", Decls := [widgetDecl] }),
   ("pkg/b.go", { Name := "pkg", Decls := [widgetDecl] }),
   ("pkg/c.go", { Name := "pkg", Decls := [.FuncDecl helperFunc] })]

/-- The local declaration `// +generate_interface` over `type Local struct{}`. -/
def localDecl : GenDecl :=
  { Doc := some [{ Text := "// +generate_interface" }], Tok := .TYPE,
    Specs := [.TypeSpec { Doc := none, Name := "Local", Typ := .StructType [] }] }

/-- The function `func run()` whose body declares the tagged struct `Local`. -/
def runFunc : FuncDecl :=
  { Recv := none, Name := "run",
    Typ := { Params := some [], Results := none },
    Body := some [.ExprStmt (.BasicLit "0"), .DeclStmt localDecl] }

/-- A file whose only type declaration is local to a function body. -/
def localFile : File :=
  { Name := "pkg", Decls := [.FuncDecl runFunc] }

/-- The declaration `func () f() {}`: the receiver list is present and has no field. -/
def emptyRecvDecl : FuncDecl :=
  { Recv := some [], Name := "f",
    Typ := { Params := some [], Results := none },
    Body := some [] }

/-- The group `type ( A struct{}; B struct{}; C int )` with the marker above the spec
of `A` inside the parentheses: the comment belongs to the spec, the declaration has
no comment group. -/
def groupInner : GenDecl :=
  { Doc := none, Tok := .TYPE,
    Specs := [.TypeSpec { Doc := some [{ Text := "// +generate_interface" }], Name := "A",
                          Typ := .StructType [] },
              .TypeSpec { Doc := none, Name := "B", Typ := .StructType [] },
              .TypeSpec { Doc := none, Name := "C", Typ := .Ident "int" }] }

/-- The same group with the marker above the keyword `type`. -/
def groupOuter : GenDecl :=
  { Doc := some [{ Text := "// +generate_interface" }], Tok := .TYPE,
    Specs := [.TypeSpec { Doc := none, Name := "A", Typ := .StructType [] },
              .TypeSpec { Doc := none, Name := "B", Typ := .StructType [] },
              .TypeSpec { Doc := none, Name := "C", Typ := .Ident "int" }] }

/-- The package `other` with one more declaration, `func () f() {}`. -/
def panicPackage : Package :=
  { Name := "other",
    Files := [("pkg/other.go",
      { Name := "other", Decls := [.FuncDecl widgetSize, .FuncDecl emptyRecvDecl] })] }

/-- The package `other` with one more declaration, a tagged `type Gadget struct{}`. -/
def gadgetPackage : Package :=
  { Name := "other",
    Files := [("pkg/other.go",
      { Name := "other",
        Decls := [.FuncDecl widgetSize,
                  .GenDecl { Doc := some [{ Text := "// +generate_interface" }], Tok := .TYPE,
                             Specs := [.TypeSpec { Doc := none, Name := "Gadget",
                                                   Typ := .StructType [] }] }] })] }

/-- The package `pkg` of `caseFiles`, which tags `Widget` and `widget`. -/
def casePackage : Package :=
  { Name := "pkg", Files := caseFiles }

/-- The environment `okSys` with a `range` over the tagged types that yields `Widget`
before `widget`. -/
def upperFirstSys : Sys where
  parseDir := okSys.parseDir
  importsProcess := okSys.importsProcess
  writeFile := okSys.writeFile
  fileRank1 := okSys.fileRank1
  fileRank2 := okSys.fileRank2
  typeRank := fun T => if T = "Widget" then 0 else 1

/-- The environment `okSys` with a `range` over the tagged types that yields `widget`
before `Widget`. -/
def lowerFirstSys : Sys where
  parseDir := okSys.parseDir
  importsProcess := okSys.importsProcess
  writeFile := okSys.writeFile
  fileRank1 := okSys.fileRank1
  fileRank2 := okSys.fileRank2
  typeRank := fun T => if T = "widget" then 0 else 1

/-- The local declaration `// +generate_interface` over `type Deep struct{}`. -/
def deepDecl : GenDecl :=
  { Doc := some [{ Text := "// +generate_interface" }], Tok := .TYPE,
    Specs := [.TypeSpec { Doc := none, Name := "Deep", Typ := .StructType [] }] }

/-- The function `func walk()` whose body holds a block with a call of a function
literal, the body of which declares the tagged struct `Deep`. -/
def walkFunc : FuncDecl :=
  { Recv := none, Name := "walk",
    Typ := { Params := some [], Results := none },
    Body := some [.BlockStmt
      [.ExprStmt (.CallExpr (.FuncLit { Params := some [], Results := none }
        [.DeclStmt deepDecl]) [])]] }

/-- A file whose only type declaration lies in a function literal inside a block. -/
def nestedFile : File :=
  { Name := "pkg", Decls := [.FuncDecl walkFunc] }

/-- A file with the top-level declaration `var f = func() { ... }` whose function
literal declares the tagged struct `Deep`. -/
def literalFile : File :=
  { Name := "pkg",
    Decls := [.GenDecl { Doc := none, Tok := .VAR,
                         Specs := [.ValueSpec ["f"]
                           [.FuncLit { Params := some [], Results := none }
                             [.DeclStmt deepDecl]]] }] }

/-! ## Further reference definitions -/

/-- Whether a comment group contains a comment whose text equals the marker. -/
def hasMarker (markerComment : String) (doc : CommentGroup) : Bool :=
  match doc with
  | none => false
  | some list => list.any (fun c => decide (c.Text = markerComment))

/-- The declared name of a spec that is a type spec of struct type. -/
def Spec.structName? : Spec → Option String
  | .TypeSpec ts =>
    match ts.Typ with
    | .StructType _ => some ts.Name
    | _ => none
  | _ => none

/-- Whether a declaration is a type declaration with the marker in its comment group
and a struct spec named `T`. -/
def GenDecl.tags (markerComment : String) (gen : GenDecl) (T : String) : Bool :=
  decide (gen.Tok = Token.TYPE) && hasMarker markerComment gen.Doc
    && gen.Specs.any (fun s => decide (s.structName? = some T))

/-- Whether a file tags `T`: some type declaration met by the traversal does. -/
def File.tags (markerComment : String) (file : File) (T : String) : Bool :=
  file.nodes.any (fun n =>
    match n with
    | .GenDecl gen => gen.tags markerComment T
    | .FuncDecl _ => false)

/-- Whether a file carries a tagged type or a method: a type declaration with the
marker and a struct spec, or a function declaration with a receiver. -/
def File.carries (markerComment : String) (file : File) : Bool :=
  file.nodes.any (fun n =>
    match n with
    | .GenDecl gen =>
      decide (gen.Tok = Token.TYPE) && hasMarker markerComment gen.Doc
        && gen.Specs.any (fun s => s.structName?.isSome)
    | .FuncDecl fn => fn.Recv.isSome)

/-- The part of a string before the first occurrence of `sep`; the whole string when
`sep` does not occur. -/
def beforeFirst (sep : List Char) : List Char → List Char
  | [] => []
  | c :: cs => if sep.isPrefixOf (c :: cs) then [] else c :: beforeFirst sep cs

/-- The packages of a directory after the file `w` was written: the path leaves every
package, the written file, with the syntax tree `parseWritten` gives for it, joins the
package named in its package clause (a further package when there is none), and a
package left without file is gone. -/
def writeInto (parseWritten : String → String → File) (pkgs : List Package)
    (w : String × String) : List Package :=
  let removed := pkgs.map (fun P =>
    { Name := P.Name, Files := P.Files.filter (fun p => decide (p.1 ≠ w.1)) })
  let added :=
    if removed.any (fun P => decide (P.Name = (parseWritten w.1 w.2).Name)) then
      removed.map (fun P =>
        if P.Name = (parseWritten w.1 w.2).Name then
          { Name := P.Name, Files := P.Files ++ [(w.1, parseWritten w.1 w.2)] }
        else P)
    else
      removed ++ [{ Name := (parseWritten w.1 w.2).Name,
                    Files := [(w.1, parseWritten w.1 w.2)] }]
  added.filter (fun P => !P.Files.isEmpty)

/-- The packages of a directory as a run that wrote `written` left it. -/
def afterRun (parseWritten : String → String → File) (pkgs : List Package)
    (written : List (String × String)) : List Package :=
  written.foldl (writeInto parseWritten) pkgs

/-- The content a run leaves at a path: that of its last write to the path. -/
def lastWrite (written : List (String × String)) (path : String) : Option String :=
  ((written.filter (fun w => decide (w.1 = path))).getLast?).map Prod.snd

/-- The files of a package that carry a tagged type or a method. -/
def carrierFiles (markerComment : String) (P : Package) : List (String × File) :=
  P.Files.filter (fun p => File.carries markerComment p.2)

/-- The packages reduced to the files that carry a tagged type or a method; a package
without such a file is left out. -/
def skeleton (markerComment : String) (pkgs : List Package) : List Package :=
  pkgs.filterMap (fun P =>
    if (carrierFiles markerComment P).isEmpty then none
    else some { Name := P.Name, Files := carrierFiles markerComment P })

/-! ## Predicates used in the proofs -/

/-- Every entry of a tagged-type map carries the interface name derived from its key. -/
def NamedByKey (m : TaggedMap) : Prop :=
  ∀ T info, m.get? T = some info → info.InterfaceName = T ++ "Interface"

/-- Relation between the tagged-type map before (`m`) and after (`r`) a part of the
first pass over the file `filename`: the names satisfying `Q` are registered with
their derived record, every other name keeps its entry. -/
def Registers (filename : String) (Q : String → Prop) (m r : TaggedMap) : Prop :=
  ∀ T, (Q T → r.get? T = some { InterfaceName := T ++ "Interface", SourceFile := filename })
    ∧ (¬ Q T → r.get? T = m.get? T)

/-! # Theorems -/

/-! ## Strings and folds -/

theorem foldl_append_concat {α : Type} (f : α → String) (l : List α) (init : String) :
    l.foldl (fun buf x => buf ++ f x) init = init ++ concatStrings (l.map f) := by
  induction l generalizing init with
  | nil => simp [concatStrings]
  | cons x xs ih =>
    simp only [List.foldl_cons, List.map_cons, concatStrings]
    rw [ih, String.append_assoc]

theorem foldl_snoc_map {α β : Type} (g : α → β) (l : List α) (acc : List β) :
    l.foldl (fun parts x => parts ++ [g x]) acc = acc ++ l.map g := by
  induction l generalizing acc with
  | nil => simp
  | cons x xs ih => simp [ih]

theorem fieldParts_step_eq (pr : Expr → String) (f : Field) (acc : List String) :
    (if f.Names.length > 0 then
        f.Names.foldl (fun parts name => parts ++ [name ++ " " ++ pr f.Typ]) acc
      else acc ++ [pr f.Typ]) = acc ++ fieldEntries pr f := by
  unfold fieldEntries
  cases h : f.Names with
  | nil => simp
  | cons n ns =>
    simp only [List.length_cons, gt_iff_lt, Nat.zero_lt_succ, if_true]
    exact foldl_snoc_map (fun name => name ++ " " ++ pr f.Typ) (n :: ns) acc

theorem fieldParts_foldl (pr : Expr → String) (list : List Field) (acc : List String) :
    list.foldl (fun parts f =>
      let typeStr := pr f.Typ
      if f.Names.length > 0 then
        f.Names.foldl (fun parts name => parts ++ [name ++ " " ++ typeStr]) parts
      else
        parts ++ [typeStr]) acc = acc ++ listEntries pr list := by
  induction list generalizing acc with
  | nil => simp [listEntries]
  | cons f fs ih =>
    simp only [List.foldl_cons]
    rw [fieldParts_step_eq, ih]
    simp [listEntries, List.append_assoc]

theorem fieldParts_eq (pr : Expr → String) (list : List Field) :
    fieldParts pr list = listEntries pr list := by
  unfold fieldParts
  rw [fieldParts_foldl]
  simp

theorem fieldEntries_length (pr : Expr → String) (f : Field) :
    (fieldEntries pr f).length = max 1 f.Names.length := by
  unfold fieldEntries
  cases h : f.Names with
  | nil => simp
  | cons n ns => simp

theorem listEntries_length (pr : Expr → String) (list : List Field) :
    (listEntries pr list).length = (list.map (fun f => max 1 f.Names.length)).sum := by
  induction list with
  | nil => simp [listEntries]
  | cons f fs ih =>
    simp only [listEntries, List.flatMap_cons, List.length_append, List.map_cons,
      List.sum_cons] at ih ⊢
    rw [ih, fieldEntries_length]

theorem containsChars_blank (l : List Char) :
    containsChars [' '] l = true ↔ ' ' ∈ l := by
  induction l with
  | nil => simp [containsChars]
  | cons c cs ih =>
    simp only [containsChars, Bool.or_eq_true, ih, List.mem_cons]
    constructor
    · rintro (h | h)
      · left
        simpa [List.isPrefixOf] using h
      · right; exact h
    · rintro (h | h)
      · left
        simpa [List.isPrefixOf] using h
      · right; exact h

theorem stringsContains_blank (s : String) :
    stringsContains s " " = true ↔ ' ' ∈ s.data := by
  unfold stringsContains
  exact containsChars_blank s.data

theorem stringsContains_named (name typeStr : String) :
    stringsContains (name ++ " " ++ typeStr) " " = true := by
  rw [stringsContains_blank]
  simp [String.data_append]

/-! ## Maps -/

theorem GoMap.get?_set {V : Type} (m : GoMap V) (k k1 : String) (v : V) :
    (m.set k v).get? k1 = if k = k1 then some v else m.get? k1 := by
  induction m with
  | nil => simp [GoMap.set, GoMap.get?]
  | cons p rest ih =>
    obtain ⟨a, b⟩ := p
    by_cases hak : a = k
    · subst hak
      by_cases h1 : a = k1 <;> simp [GoMap.set, GoMap.get?, h1]
    · by_cases h1 : a = k1
      · subst h1
        have hk : ¬ k = a := fun h => hak h.symm
        simp [GoMap.set, GoMap.get?, hak, hk]
      · simp [GoMap.set, GoMap.get?, hak, h1, ih]

theorem GoMap.mem_of_get? {V : Type} (m : GoMap V) (k : String) (v : V)
    (h : m.get? k = some v) : (k, v) ∈ m := by
  induction m with
  | nil => simp [GoMap.get?] at h
  | cons p rest ih =>
    obtain ⟨a, b⟩ := p
    by_cases hak : a = k
    · subst hak
      simp [GoMap.get?] at h
      simp [h]
    · simp [GoMap.get?, hak] at h
      exact List.mem_cons_of_mem _ (ih h)

theorem GoMap.mem_keys_iff {V : Type} (m : GoMap V) (k : String) :
    k ∈ m.keys ↔ ∃ v, m.get? k = some v := by
  induction m with
  | nil => simp [GoMap.keys, GoMap.get?]
  | cons p rest ih =>
    obtain ⟨a, b⟩ := p
    by_cases hak : a = k
    · subst hak
      simp [GoMap.keys, GoMap.get?]
    · have hka : ¬ k = a := fun h => hak h.symm
      simp only [GoMap.keys, List.map_cons, List.mem_cons, hka, false_or, GoMap.get?, hak,
        if_false]
      exact ih

theorem GoMap.mem_keys_set {V : Type} (m : GoMap V) (k k1 : String) (v : V) :
    k1 ∈ (m.set k v).keys ↔ k1 = k ∨ k1 ∈ m.keys := by
  rw [GoMap.mem_keys_iff, GoMap.mem_keys_iff, GoMap.get?_set]
  by_cases h : k = k1
  · subst h; simp
  · have h1 : ¬ k1 = k := fun e => h e.symm
    simp [h, h1]

theorem GoMap.getD_set {V : Type} (m : GoMap V) (k k1 : String) (v d : V) :
    (m.set k v).getD k1 d = if k = k1 then v else m.getD k1 d := by
  unfold GoMap.getD
  rw [GoMap.get?_set]
  by_cases h : k = k1 <;> simp [h]

/-! ## The first pass registers `Name ++ "Interface"` -/

theorem namedByKey_empty : NamedByKey [] := by
  intro T info h
  simp [GoMap.get?] at h

theorem namedByKey_set (m : TaggedMap) (name filename : String) (h : NamedByKey m) :
    NamedByKey (m.set name
      { InterfaceName := name ++ "Interface", SourceFile := filename }) := by
  intro T info hget
  rw [GoMap.get?_set] at hget
  by_cases hk : name = T
  · subst hk
    simp at hget
    rw [← hget]
  · simp [hk] at hget
    exact h T info hget

theorem namedByKey_comments (markerComment filename name : String) (list : List Comment)
    (m : TaggedMap) (h : NamedByKey m) :
    NamedByKey (list.foldl (fun m comment =>
      if comment.Text = markerComment then
        m.set name { InterfaceName := name ++ "Interface", SourceFile := filename }
      else m) m) := by
  induction list generalizing m with
  | nil => exact h
  | cons c cs ih =>
    simp only [List.foldl_cons]
    apply ih
    by_cases hc : c.Text = markerComment
    · simp only [hc, if_true]
      exact namedByKey_set m name filename h
    · simp only [hc, if_false]
      exact h

theorem namedByKey_scanSpec (markerComment filename : String) (gen : GenDecl)
    (m : TaggedMap) (spec : Spec) (h : NamedByKey m) :
    NamedByKey (scanSpec markerComment filename gen m spec) := by
  unfold scanSpec
  split
  · split
    · split
      · exact namedByKey_comments markerComment filename _ _ m h
      · exact h
    · exact h
  · exact h

theorem namedByKey_foldl {α : Type} (f : TaggedMap → α → TaggedMap)
    (hf : ∀ m a, NamedByKey m → NamedByKey (f m a)) (l : List α) (m : TaggedMap)
    (h : NamedByKey m) : NamedByKey (l.foldl f m) := by
  induction l generalizing m with
  | nil => exact h
  | cons a as ih => exact ih (f m a) (hf m a h)

theorem namedByKey_scanNode (markerComment filename : String) (m : TaggedMap) (n : Node)
    (h : NamedByKey m) : NamedByKey (scanNode markerComment filename m n) := by
  unfold scanNode
  split
  · split
    · exact h
    · exact namedByKey_foldl _ (fun m a => namedByKey_scanSpec markerComment filename _ m a)
        _ m h
  · exact h

theorem namedByKey_scanFile (markerComment filename : String) (file : File)
    (m : TaggedMap) (h : NamedByKey m) :
    NamedByKey (scanFile markerComment filename file m) :=
  namedByKey_foldl _ (fun m a => namedByKey_scanNode markerComment filename m a) _ m h

theorem namedByKey_scanFiles (markerComment : String) (files : List (String × File))
    (m : TaggedMap) (h : NamedByKey m) :
    NamedByKey (scanFiles markerComment files m) := by
  unfold scanFiles
  exact namedByKey_foldl (fun m (p : String × File) => scanFile markerComment p.1 p.2 m)
    (fun m p => namedByKey_scanFile markerComment p.1 p.2 m) files m h

theorem assemble_eq (pr : Expr → String) (pkgName : String) (structInfo : StructInfo)
    (fns : List FuncDecl) :
    assemble pr pkgName structInfo fns =
      "package " ++ pkgName ++ "\n\n" ++ "type " ++ structInfo.InterfaceName
        ++ " interface \x7b\n" ++ concatStrings (fns.map (memberLine pr)) ++ "\x7d\n" := by
  unfold assemble
  simp only [foldl_append_concat, String.append_assoc]
  rfl

/-! ## Rendering -/

/-- C1: for a type `T` registered by the first pass, the text assembled for `T`
is the package clause, the line `type TInterface interface {`, one member line
`\t` name parameters results `\n` per collected method in list order, and the
closing `}\n`; the number of member lines is the number of collected methods, and
this text with the output path is what the generation loop produces for `T`. -/
theorem C1_assembled_text (L : Lib) (markerComment pkgName : String)
    (files : List (String × File)) (methods : MethodMap) (T : String) (info : StructInfo)
    (hT : (scanFiles markerComment files []).get? T = some info) :
    (generateOne L pkgName methods (T, info)).2 =
        "package " ++ pkgName ++ "\n\n" ++ "type " ++ T ++ "Interface" ++ " interface \x7b\n"
          ++ concatStrings ((methods.getD T []).map (fun m =>
              "\t" ++ m.Name ++ formatFieldList L.printExpr m.Typ.Params
                ++ formatResultList L.printExpr m.Typ.Results ++ "\n"))
          ++ "\x7d\n"
      ∧ ((methods.getD T []).map (fun m =>
              "\t" ++ m.Name ++ formatFieldList L.printExpr m.Typ.Params
                ++ formatResultList L.printExpr m.Typ.Results ++ "\n")).length
          = (methods.getD T []).length
      ∧ generateOne L pkgName methods (T, info)
          ∈ generate L pkgName (scanFiles markerComment files []) methods := by
  have hname : info.InterfaceName = T ++ "Interface" :=
    namedByKey_scanFiles markerComment files [] namedByKey_empty T info hT
  refine ⟨?_, by simp, ?_⟩
  · show assemble L.printExpr pkgName info (methods.getD T []) = _
    have hm : memberLine L.printExpr = fun m =>
        "\t" ++ m.Name ++ formatFieldList L.printExpr m.Typ.Params
          ++ formatResultList L.printExpr m.Typ.Results ++ "\n" := rfl
    rw [assemble_eq, hname, hm]
    simp only [String.append_assoc]
  · unfold generate
    exact List.mem_map_of_mem _ (GoMap.mem_of_get? _ T info hT)

/-- C1, the scenario of the specification: `Widget` tagged in one file with its
method `Name() string` in another file of package `pkg`. -/
theorem C1_assembled_text_witness :
    (scanFiles defaultMarker widgetFiles []).get? "Widget"
        = some { InterfaceName := "WidgetInterface", SourceFile := "pkg/widget.go" }
    ∧ (generateOne goLib "pkg" [("Widget", [widgetName])]
          ("Widget", { InterfaceName := "WidgetInterface", SourceFile := "pkg/widget.go" })).2
        = "package pkg\n\ntype WidgetInterface interface \x7b\n\tName() string\n\x7d\n"
    ∧ processPackage goLib defaultMarker "pkg" widgetFiles
        = some [("pkg/widget.interface.go",
            "package pkg\n\ntype WidgetInterface interface \x7b\n\tName() string\n\x7d\n")] :=
  ⟨by decide,
   (C1_assembled_text goLib defaultMarker "pkg" widgetFiles [("Widget", [widgetName])]
      "Widget" { InterfaceName := "WidgetInterface", SourceFile := "pkg/widget.go" }
      (by decide)).1.trans (by decide),
   by decide⟩

/-- C2: `formatResultList` on a result list of exactly one field without names:
the printed type is rendered bare behind one blank when it contains no blank, and in
parentheses when it contains one.  The result list of `func (t *T) Bar() error`
renders as ` error` (member line `Bar() error`); the single unnamed result `chan int`
renders as ` (chan int)`. -/
theorem C2_single_unnamed_result (pr : Expr → String) (t : Expr) :
    formatResultList pr (some [.mk [] t])
        = (if stringsContains (pr t) " " = true then " (" ++ pr t ++ ")" else " " ++ pr t)
      ∧ formatResultList printExpr barDecl.Typ.Results = " error"
      ∧ memberLine printExpr barDecl = "\tBar() error\n"
      ∧ formatResultList printExpr chanResult = " (chan int)" := by
  refine ⟨?_, by decide, by decide, by decide⟩
  by_cases hblank : stringsContains (pr t) " " = true
  · simp [formatResultList, fieldParts, Field.Names, Field.Typ, hblank, String.intercalate,
      String.intercalate.go]
  · simp [formatResultList, fieldParts, Field.Names, Field.Typ, hblank]

/-- C3: `formatFieldList` renders a parameter list as `(` entries joined by `, ` `)`,
where a field with names contributes one `name type` entry per name, in order, and a
field without names the bare `type`; the number of entries is the sum over the fields
of `max 1 (number of names)`; the nil list and the list without fields render as `()`;
`func (t *T) Foo(a, b int) (string, error)` renders its parameters as `(a int, b int)`
and its member line as `Foo(a int, b int) (string, error)`. -/
theorem C3_formatFieldList (pr : Expr → String) (list : List Field) :
    formatFieldList pr (some list)
        = "(" ++ ", ".intercalate (list.flatMap (fieldEntries pr)) ++ ")"
      ∧ (list.flatMap (fieldEntries pr)).length
          = (list.map (fun f => max 1 f.Names.length)).sum
      ∧ (∀ (n : String) (ns : List String) (t : Expr),
          fieldEntries pr (.mk (n :: ns) t) = (n :: ns).map (fun x => x ++ " " ++ pr t))
      ∧ (∀ t : Expr, fieldEntries pr (.mk [] t) = [pr t])
      ∧ formatFieldList pr none = "()"
      ∧ formatFieldList pr (some []) = "()"
      ∧ formatFieldList printExpr fooDecl.Typ.Params = "(a int, b int)"
      ∧ memberLine printExpr fooDecl = "\tFoo(a int, b int) (string, error)\n" := by
  refine ⟨?_, listEntries_length pr list, ?_, ?_, rfl, rfl, by decide, by decide⟩
  · show "(" ++ ", ".intercalate (fieldParts pr list) ++ ")" = _
    rw [fieldParts_eq]
    rfl
  · intro n ns t
    rfl
  · intro t
    rfl

/-- C4: a result list that flattens to two or more entries, or contains a named
result, is rendered as one blank followed by its rendering as a parameter list. -/
theorem C4_results_as_parameters (pr : Expr → String) (list : List Field)
    (h : 2 ≤ (list.flatMap (fieldEntries pr)).length ∨ ∃ f ∈ list, f.Names ≠ []) :
    formatResultList pr (some list) = " " ++ formatFieldList pr (some list) := by
  have hne : list ≠ [] := by
    rintro rfl
    simp at h
  have hlen : ¬ list.length = 0 := by
    intro h0
    exact hne (List.length_eq_zero.mp h0)
  have hparts : fieldParts pr list = list.flatMap (fieldEntries pr) := fieldParts_eq pr list
  have hcond : ¬ ((list.flatMap (fieldEntries pr)).length = 1 ∧
      stringsContains ((list.flatMap (fieldEntries pr)).headD "") " " = false) := by
    rintro ⟨h1, hno⟩
    rcases h with h2 | ⟨f, hf, hnames⟩
    · omega
    · obtain ⟨p, hp⟩ := List.length_eq_one.mp h1
      have hsub : ∀ e ∈ fieldEntries pr f, e = p := by
        intro e he
        have : e ∈ list.flatMap (fieldEntries pr) := List.mem_flatMap.mpr ⟨f, hf, he⟩
        rw [hp] at this
        simpa using this
      cases hn : f.Names with
      | nil => exact hnames hn
      | cons n ns =>
        have hmem : n ++ " " ++ pr f.Typ ∈ fieldEntries pr f := by
          unfold fieldEntries
          rw [hn]
          simp
        have hpe := hsub _ hmem
        rw [hp] at hno
        simp only [List.headD_cons] at hno
        rw [← hpe, stringsContains_named] at hno
        exact Bool.noConfusion hno
  unfold formatResultList formatFieldList
  simp only [hlen, if_false, hparts, hcond]
  simp only [String.append_assoc]
  rfl

/-- C4 at the single named result `(err error)`, which is rendered ` (err error)`. -/
theorem C4_results_as_parameters_witness :
    (∃ f ∈ [Field.mk ["err"] (.Ident "error")], f.Names ≠ [])
      ∧ formatResultList printExpr namedResult
          = " " ++ formatFieldList printExpr namedResult
      ∧ formatResultList printExpr namedResult = " (err error)" :=
  ⟨⟨Field.mk ["err"] (.Ident "error"), by simp, by simp [Field.Names]⟩,
   C4_results_as_parameters printExpr [Field.mk ["err"] (.Ident "error")]
     (Or.inr ⟨Field.mk ["err"] (.Ident "error"), by simp, by simp [Field.Names]⟩),
   by decide⟩

/-- C7: `recvName` agrees with the reference definition on every expression: an
identifier and a pointer to an identifier give the identifier, everything else (a
pointer to a pointer, a parenthesized type, an instantiation `T[K]`, a qualified name)
gives the empty string. -/
theorem C7_recvName_reference (e : Expr) :
    recvName e = recvNameRef e
      ∧ (∀ n : String, recvName (.Ident n) = n ∧ recvName (.StarExpr (.Ident n)) = n)
      ∧ (∀ x : Expr, recvName (.StarExpr (.StarExpr x)) = "")
      ∧ (∀ x : Expr, recvName (.ParenExpr x) = "")
      ∧ (∀ x i : Expr, recvName (.IndexExpr x i) = "")
      ∧ (∀ (x : Expr) (sel : String), recvName (.SelectorExpr x sel) = "") := by
  refine ⟨?_, fun n => ⟨rfl, rfl⟩, fun _ => rfl, fun _ => rfl, fun _ _ => rfl,
    fun _ _ => rfl⟩
  cases e with
  | StarExpr x => cases x <;> rfl
  | _ => rfl

/-! ## The first pass, characterised -/

theorem registers_congr (filename : String) (Q1 Q2 : String → Prop) (m r : TaggedMap)
    (hQ : ∀ T, Q1 T ↔ Q2 T) (h : Registers filename Q1 m r) : Registers filename Q2 m r := by
  intro T
  exact ⟨fun q => (h T).1 ((hQ T).mpr q), fun q => (h T).2 (fun q1 => q ((hQ T).mp q1))⟩

theorem registers_refl (filename : String) (m : TaggedMap) :
    Registers filename (fun _ => False) m m := by
  intro T
  exact ⟨fun q => q.elim, fun _ => rfl⟩

theorem registers_trans (filename : String) (Q1 Q2 : String → Prop) (m r1 r2 : TaggedMap)
    (h1 : Registers filename Q1 m r1) (h2 : Registers filename Q2 r1 r2) :
    Registers filename (fun T => Q1 T ∨ Q2 T) m r2 := by
  intro T
  constructor
  · intro q
    by_cases q2 : Q2 T
    · exact (h2 T).1 q2
    · rw [(h2 T).2 q2]
      rcases q with q1 | q2a
      · exact (h1 T).1 q1
      · exact absurd q2a q2
  · intro q
    have n1 : ¬ Q1 T := fun q1 => q (Or.inl q1)
    have n2 : ¬ Q2 T := fun q2 => q (Or.inr q2)
    rw [(h2 T).2 n2, (h1 T).2 n1]

theorem registers_set (filename name : String) (m : TaggedMap) :
    Registers filename (fun T => name = T) m
      (m.set name { InterfaceName := name ++ "Interface", SourceFile := filename }) := by
  intro T
  constructor
  · intro q
    subst q
    rw [GoMap.get?_set]
    simp
  · intro q
    rw [GoMap.get?_set]
    simp [q]

theorem registers_foldl {α : Type} (filename : String) (f : TaggedMap → α → TaggedMap)
    (Q : α → String → Prop) (hf : ∀ m a, Registers filename (Q a) m (f m a))
    (l : List α) (m : TaggedMap) :
    Registers filename (fun T => ∃ a ∈ l, Q a T) m (l.foldl f m) := by
  induction l generalizing m with
  | nil =>
    apply registers_congr filename (fun _ => False) _ m m _ (registers_refl filename m)
    intro T
    simp
  | cons a as ih =>
    simp only [List.foldl_cons]
    apply registers_congr filename (fun T => Q a T ∨ ∃ b ∈ as, Q b T) _ m _ _
      (registers_trans filename _ _ m (f m a) _ (hf m a) (ih (f m a)))
    intro T
    simp

theorem registers_comment (markerComment filename name : String) (m : TaggedMap)
    (comment : Comment) :
    Registers filename (fun T => name = T ∧ comment.Text = markerComment) m
      (if comment.Text = markerComment then
        m.set name { InterfaceName := name ++ "Interface", SourceFile := filename }
      else m) := by
  by_cases hc : comment.Text = markerComment
  · simp only [hc, if_true]
    apply registers_congr filename (fun T => name = T) _ m _ _ (registers_set filename name m)
    intro T
    simp
  · simp only [hc, if_false]
    apply registers_congr filename (fun _ => False) _ m _ _ (registers_refl filename m)
    intro T
    simp

/-- What one spec of the declaration `gen` registers: its name, when it is a type spec
of struct type and a comment of `gen.Doc` equals the marker. -/
theorem registers_scanSpec (markerComment filename : String) (gen : GenDecl)
    (m : TaggedMap) (spec : Spec) :
    Registers filename
      (fun T => ∃ ts, spec = Spec.TypeSpec ts ∧ ts.Name = T
        ∧ (∃ fields, ts.Typ = Expr.StructType fields)
        ∧ ∃ list, gen.Doc = some list ∧ ∃ c ∈ list, c.Text = markerComment)
      m (scanSpec markerComment filename gen m spec) := by
  have hno : ∀ (Q : String → Prop), (∀ T, ¬ Q T) → Registers filename Q m m := by
    intro Q hQ
    apply registers_congr filename (fun _ => False) _ m m _ (registers_refl filename m)
    intro T
    simp [hQ T]
  cases spec with
  | TypeSpec ts =>
    cases hty : ts.Typ with
    | StructType fields =>
      cases hdoc : gen.Doc with
      | none =>
        simp only [scanSpec, hty, hdoc]
        apply hno
        rintro T ⟨ts1, _, _, _, list, hl, _⟩
        simp at hl
      | some list =>
        simp only [scanSpec, hty, hdoc]
        apply registers_congr filename
          (fun T => ∃ c ∈ list, ts.Name = T ∧ c.Text = markerComment) _ m _ _
          (registers_foldl filename _ (fun c T => ts.Name = T ∧ c.Text = markerComment)
            (fun m c => registers_comment markerComment filename ts.Name m c) list m)
        intro T
        constructor
        · rintro ⟨c, hc, hname, htext⟩
          exact ⟨ts, rfl, hname, ⟨fields, hty⟩, list, rfl, c, hc, htext⟩
        · rintro ⟨ts1, hts, hname, _, list1, hl, c, hc, htext⟩
          cases hts
          cases hl
          exact ⟨c, hc, hname, htext⟩
    | _ =>
      simp only [scanSpec, hty]
      apply hno
      rintro T ⟨ts1, hts, _, ⟨fields, hf⟩, _⟩
      cases hts
      rw [hty] at hf
      cases hf
  | _ =>
    simp only [scanSpec]
    apply hno
    rintro T ⟨ts1, hts, _⟩
    cases hts

/-- What one node registers. -/
theorem registers_scanNode (markerComment filename : String) (m : TaggedMap) (n : Node) :
    Registers filename
      (fun T => ∃ gen, n = Node.GenDecl gen ∧ gen.Tok = Token.TYPE
        ∧ (∃ list, gen.Doc = some list ∧ ∃ c ∈ list, c.Text = markerComment)
        ∧ ∃ ts, Spec.TypeSpec ts ∈ gen.Specs ∧ ts.Name = T
          ∧ ∃ fields, ts.Typ = Expr.StructType fields)
      m (scanNode markerComment filename m n) := by
  have hno : ∀ (Q : String → Prop), (∀ T, ¬ Q T) → Registers filename Q m m := by
    intro Q hQ
    apply registers_congr filename (fun _ => False) _ m m _ (registers_refl filename m)
    intro T
    simp [hQ T]
  cases n with
  | GenDecl gen =>
    by_cases htok : gen.Tok = Token.TYPE
    · simp only [scanNode, htok, ne_eq, not_true_eq_false, if_false]
      apply registers_congr filename _ _ m _ _
        (registers_foldl filename _ _
          (fun m spec => registers_scanSpec markerComment filename gen m spec) gen.Specs m)
      intro T
      constructor
      · rintro ⟨spec, hspec, ts, hts, hname, hstruct, hdoc⟩
        subst hts
        exact ⟨gen, rfl, htok, hdoc, ts, hspec, hname, hstruct⟩
      · rintro ⟨gen1, hg, _, hdoc, ts, hspec, hname, hstruct⟩
        cases hg
        exact ⟨Spec.TypeSpec ts, hspec, ts, rfl, hname, hstruct, hdoc⟩
    · simp only [scanNode, ne_eq, htok, not_false_eq_true, if_true]
      apply hno
      rintro T ⟨gen1, hg, htok1, _⟩
      cases hg
      exact htok htok1
  | FuncDecl fn =>
    simp only [scanNode]
    apply hno
    rintro T ⟨gen1, hg, _⟩
    cases hg

/-- What the first pass over one file registers. -/
theorem registers_scanFile (markerComment filename : String) (file : File) (m : TaggedMap) :
    Registers filename
      (fun T => ∃ gen, Node.GenDecl gen ∈ file.nodes ∧ gen.Tok = Token.TYPE
        ∧ (∃ list, gen.Doc = some list ∧ ∃ c ∈ list, c.Text = markerComment)
        ∧ ∃ ts, Spec.TypeSpec ts ∈ gen.Specs ∧ ts.Name = T
          ∧ ∃ fields, ts.Typ = Expr.StructType fields)
      m (scanFile markerComment filename file m) := by
  unfold scanFile
  apply registers_congr filename _ _ m _ _
    (registers_foldl filename _ _
      (fun m n => registers_scanNode markerComment filename m n) file.nodes m)
  intro T
  constructor
  · rintro ⟨n, hn, gen, hg, rest⟩
    subst hg
    exact ⟨gen, hn, rest⟩
  · rintro ⟨gen, hn, rest⟩
    exact ⟨Node.GenDecl gen, hn, gen, rfl, rest⟩

/-- C5: scanning a file registers the name `T` with the record
(`T ++ "Interface"`, file) exactly when the file holds a type declaration whose
comment group has a comment with text equal to the marker and which has a type spec
named `T` of struct type; every other name keeps the entry it had before the file
was scanned.  In `mixedFile` only the struct with the exact marker is registered: not
the struct without comment, not the tagged non-struct, not the struct whose comment
has a trailing blank. -/
theorem C5_registration (markerComment filename : String) (file : File)
    (structsToInterfaces : TaggedMap) (T : String) :
    (∀ info, (scanFile markerComment filename file []).get? T = some info ↔
        (info = { InterfaceName := T ++ "Interface", SourceFile := filename }
          ∧ ∃ gen, Node.GenDecl gen ∈ file.nodes ∧ gen.Tok = Token.TYPE
            ∧ (∃ list, gen.Doc = some list ∧ ∃ c ∈ list, c.Text = markerComment)
            ∧ ∃ ts, Spec.TypeSpec ts ∈ gen.Specs ∧ ts.Name = T
              ∧ ∃ fields, ts.Typ = Expr.StructType fields))
      ∧ (((scanFile markerComment filename file structsToInterfaces).get? T
            = some { InterfaceName := T ++ "Interface", SourceFile := filename }
          ∧ ∃ gen, Node.GenDecl gen ∈ file.nodes ∧ gen.Tok = Token.TYPE
            ∧ (∃ list, gen.Doc = some list ∧ ∃ c ∈ list, c.Text = markerComment)
            ∧ ∃ ts, Spec.TypeSpec ts ∈ gen.Specs ∧ ts.Name = T
              ∧ ∃ fields, ts.Typ = Expr.StructType fields)
        ∨ ((scanFile markerComment filename file structsToInterfaces).get? T
            = structsToInterfaces.get? T
          ∧ ¬ ∃ gen, Node.GenDecl gen ∈ file.nodes ∧ gen.Tok = Token.TYPE
            ∧ (∃ list, gen.Doc = some list ∧ ∃ c ∈ list, c.Text = markerComment)
            ∧ ∃ ts, Spec.TypeSpec ts ∈ gen.Specs ∧ ts.Name = T
              ∧ ∃ fields, ts.Typ = Expr.StructType fields))
      ∧ scanFile defaultMarker "pkg/mixed.go" mixedFile []
          = [("Tagged", { InterfaceName := "TaggedInterface",
                          SourceFile := "pkg/mixed.go" })] := by
  refine ⟨?_, ?_, by decide⟩
  · intro info
    have h := registers_scanFile markerComment filename file [] T
    constructor
    · intro hget
      by_cases q : ∃ gen, Node.GenDecl gen ∈ file.nodes ∧ gen.Tok = Token.TYPE
            ∧ (∃ list, gen.Doc = some list ∧ ∃ c ∈ list, c.Text = markerComment)
            ∧ ∃ ts, Spec.TypeSpec ts ∈ gen.Specs ∧ ts.Name = T
              ∧ ∃ fields, ts.Typ = Expr.StructType fields
      · rw [h.1 q] at hget
        exact ⟨(Option.some.inj hget).symm, q⟩
      · rw [h.2 q] at hget
        simp [GoMap.get?] at hget
    · rintro ⟨hinfo, q⟩
      rw [hinfo]
      exact h.1 q
  · have h := registers_scanFile markerComment filename file structsToInterfaces T
    by_cases q : ∃ gen, Node.GenDecl gen ∈ file.nodes ∧ gen.Tok = Token.TYPE
          ∧ (∃ list, gen.Doc = some list ∧ ∃ c ∈ list, c.Text = markerComment)
          ∧ ∃ ts, Spec.TypeSpec ts ∈ gen.Specs ∧ ts.Name = T
            ∧ ∃ fields, ts.Typ = Expr.StructType fields
    · exact Or.inl ⟨h.1 q, q⟩
    · exact Or.inr ⟨h.2 q, q⟩

/-- C6: the output path of the tagged type `InterfaceBuilder` of `pkg/builder.go` is
`pkg/.interface.go`, not `pkg/interfacebuilder.interface.go`: the file name is cut at
the first `interface` of the lower-cased interface name.  For `MyInterfaceImpl` the
file name is `my.interface.go`; for `Widget` it is `widget.interface.go`. -/
theorem C6_path_cut_at_first_interface :
    (scanFiles defaultMarker builderFiles []).get? "InterfaceBuilder"
        = some { InterfaceName := "InterfaceBuilderInterface", SourceFile := "pkg/builder.go" }
      ∧ ifacePath goLib
          { InterfaceName := "InterfaceBuilderInterface", SourceFile := "pkg/builder.go" }
          = "pkg/.interface.go"
      ∧ ifacePath goLib
          { InterfaceName := "InterfaceBuilderInterface", SourceFile := "pkg/builder.go" }
          ≠ goLib.join (goLib.dir "pkg/builder.go")
              (stringsToLower goLib.lowerNonASCII "InterfaceBuilder" ++ ".interface.go")
      ∧ ifaceFileName goLib
          { InterfaceName := "MyInterfaceImplInterface", SourceFile := "pkg/impl.go" }
          = "my.interface.go"
      ∧ ifacePath goLib
          { InterfaceName := "WidgetInterface", SourceFile := "pkg/widget.go" }
          = "pkg/widget.interface.go" := by
  refine ⟨by decide, by decide, by decide, by decide, by decide⟩

/-! ## The second pass -/

theorem collectNode_keys (structsToInterfaces : TaggedMap) (methods methods1 : MethodMap)
    (n : Node) (hinv : ∀ k ∈ methods.keys, k ∈ structsToInterfaces.keys)
    (h : collectNode structsToInterfaces methods n = some methods1) :
    ∀ k ∈ methods1.keys, k ∈ structsToInterfaces.keys := by
  cases n with
  | GenDecl gen =>
    simp only [collectNode, Option.some.injEq] at h
    subst h
    exact hinv
  | FuncDecl fn =>
    simp only [collectNode] at h
    split at h
    · cases h; exact hinv
    · cases h
    · rename_i f0 rest hrecv
      split at h
      · cases h; exact hinv
      · split at h
        · rename_i info hget
          cases h
          intro k hk
          rw [GoMap.mem_keys_set] at hk
          rcases hk with hk | hk
          · rw [hk, GoMap.mem_keys_iff]
            exact ⟨info, hget⟩
          · exact hinv k hk
        · cases h; exact hinv

theorem collectNodes_keys (structsToInterfaces : TaggedMap) (nodes : List Node)
    (methods methods1 : MethodMap)
    (hinv : ∀ k ∈ methods.keys, k ∈ structsToInterfaces.keys)
    (h : collectNodes structsToInterfaces methods nodes = some methods1) :
    ∀ k ∈ methods1.keys, k ∈ structsToInterfaces.keys := by
  induction nodes generalizing methods with
  | nil =>
    simp only [collectNodes, Option.some.injEq] at h
    subst h
    exact hinv
  | cons n ns ih =>
    simp only [collectNodes] at h
    split at h
    · cases h
    · rename_i m1 hm1
      exact ih m1 (collectNode_keys structsToInterfaces methods m1 n hinv hm1) h

theorem collectFiles_keys (structsToInterfaces : TaggedMap) (files : List File)
    (methods methods1 : MethodMap)
    (hinv : ∀ k ∈ methods.keys, k ∈ structsToInterfaces.keys)
    (h : collectFiles structsToInterfaces methods files = some methods1) :
    ∀ k ∈ methods1.keys, k ∈ structsToInterfaces.keys := by
  induction files generalizing methods with
  | nil =>
    simp only [collectFiles, Option.some.injEq] at h
    subst h
    exact hinv
  | cons f fs ih =>
    simp only [collectFiles] at h
    split at h
    · cases h
    · rename_i m1 hm1
      exact ih m1 (collectNodes_keys structsToInterfaces f.nodes methods m1 hinv hm1) h

/-- C8: after the second pass over any list of files, started from the empty method
map with the tagged types found by the first pass (over any files, with any marker),
every key of the method map is a key of the tagged-type map; each single step of
the pass preserves this, for every tagged-type map; and a method whose receiver
resolves to a name that is not registered leaves the method map unchanged. -/
theorem C8_method_keys_are_tagged (markerComment : String)
    (files : List (String × File)) (order : List File) (methods : MethodMap)
    (h : collectFiles (scanFiles markerComment files []) [] order = some methods) :
    (∀ k ∈ methods.keys, k ∈ (scanFiles markerComment files []).keys)
      ∧ (∀ (structsToInterfaces : TaggedMap) (m m1 : MethodMap) (n : Node),
          (∀ k ∈ m.keys, k ∈ structsToInterfaces.keys) →
          collectNode structsToInterfaces m n = some m1 →
          ∀ k ∈ m1.keys, k ∈ structsToInterfaces.keys)
      ∧ (∀ (structsToInterfaces : TaggedMap) (m : MethodMap) (fn : FuncDecl)
          (f0 : Field) (rest : List Field),
          fn.Recv = some (f0 :: rest) →
          structsToInterfaces.get? (recvName f0.Typ) = none →
          collectNode structsToInterfaces m (Node.FuncDecl fn) = some m) := by
  refine ⟨?_, fun s m m1 n hinv hstep => collectNode_keys s m m1 n hinv hstep, ?_⟩
  · apply collectFiles_keys (scanFiles markerComment files []) order [] methods _ h
    intro k hk
    simp [GoMap.keys] at hk
  · intro s m fn f0 rest hrecv hget
    simp only [collectNode, hrecv, hget]
    split <;> rfl

/-- C8 on the package `dupFiles`: the method of the untagged `Gadget` is discarded,
the method map has the single key `Widget`. -/
theorem C8_method_keys_are_tagged_witness :
    collectFiles (scanFiles defaultMarker dupFiles []) [] (dupFiles.map Prod.snd)
        = some [("Widget", [widgetName, widgetNameAgain])]
      ∧ (∀ k ∈ GoMap.keys [("Widget", [widgetName, widgetNameAgain])],
          k ∈ (scanFiles defaultMarker dupFiles []).keys) :=
  ⟨rfl,
   (C8_method_keys_are_tagged defaultMarker dupFiles (dupFiles.map Prod.snd)
      [("Widget", [widgetName, widgetNameAgain])] rfl).1⟩

mutual
theorem spec_nodes_funcDecl : ∀ s : Spec, s.nodes.filterMap Node.funcDecl? = []
  | .TypeSpec _ => by simp [Spec.nodes]
  | .ImportSpec _ => by simp [Spec.nodes]
  | .ValueSpec _ values => by
    simp only [Spec.nodes]
    exact exprsNodes_funcDecl values
theorem specsNodes_funcDecl : ∀ l : List Spec, (specsNodes l).filterMap Node.funcDecl? = []
  | [] => by simp [specsNodes]
  | s :: ss => by
    simp only [specsNodes, List.filterMap_append]
    rw [spec_nodes_funcDecl s, specsNodes_funcDecl ss]
    rfl
theorem stmt_nodes_funcDecl : ∀ s : Stmt, s.nodes.filterMap Node.funcDecl? = []
  | .DeclStmt ⟨doc, tok, specs⟩ => by
    simp only [Stmt.nodes, List.filterMap_cons, Node.funcDecl?]
    exact specsNodes_funcDecl specs
  | .BlockStmt l => by
    simp only [Stmt.nodes]
    exact stmtsNodes_funcDecl l
  | .ExprStmt x => by
    simp only [Stmt.nodes]
    exact expr_nodes_funcDecl x
theorem stmtsNodes_funcDecl : ∀ l : List Stmt, (stmtsNodes l).filterMap Node.funcDecl? = []
  | [] => by simp [stmtsNodes]
  | s :: ss => by
    simp only [stmtsNodes, List.filterMap_append]
    rw [stmt_nodes_funcDecl s, stmtsNodes_funcDecl ss]
    rfl
theorem expr_nodes_funcDecl : ∀ x : ValueExpr, x.nodes.filterMap Node.funcDecl? = []
  | .Ident _ => by simp [ValueExpr.nodes]
  | .BasicLit _ => by simp [ValueExpr.nodes]
  | .FuncLit _ body => by
    simp only [ValueExpr.nodes]
    exact stmtsNodes_funcDecl body
  | .CallExpr f args => by
    simp only [ValueExpr.nodes, List.filterMap_append]
    rw [expr_nodes_funcDecl f, exprsNodes_funcDecl args]
    rfl
theorem exprsNodes_funcDecl :
    ∀ l : List ValueExpr, (exprsNodes l).filterMap Node.funcDecl? = []
  | [] => by simp [exprsNodes]
  | x :: xs => by
    simp only [exprsNodes, List.filterMap_append]
    rw [expr_nodes_funcDecl x, exprsNodes_funcDecl xs]
    rfl
end

theorem decl_nodes_funcDecl (d : Decl) :
    d.nodes.filterMap Node.funcDecl? =
      (match d with
       | .FuncDecl fn => [fn]
       | _ => []) := by
  cases d with
  | GenDecl g =>
    simp only [Decl.nodes, List.filterMap_cons, Node.funcDecl?]
    exact specsNodes_funcDecl g.Specs
  | FuncDecl fn =>
    simp only [Decl.nodes, List.filterMap_cons, Node.funcDecl?]
    cases fn.Body with
    | none => simp
    | some b => simp [stmtsNodes_funcDecl b]
  | BadDecl => simp [Decl.nodes]

theorem file_nodes_funcDecls (file : File) :
    file.nodes.filterMap Node.funcDecl? = file.funcDecls := by
  unfold File.nodes File.funcDecls
  induction file.Decls with
  | nil => simp
  | cons d ds ih =>
    simp only [List.flatMap_cons, List.filterMap_append, ih, decl_nodes_funcDecl,
      List.filterMap_cons]
    cases d <;> simp

theorem collectNode_getD (structsToInterfaces : TaggedMap) (methods methods1 : MethodMap)
    (n : Node) (T : String) (hT : T ≠ "") (htag : structsToInterfaces.get? T ≠ none)
    (h : collectNode structsToInterfaces methods n = some methods1) :
    methods1.getD T [] =
      methods.getD T [] ++ ([n].filterMap Node.funcDecl?).filter (resolvesTo T) := by
  cases n with
  | GenDecl gen =>
    simp only [collectNode, Option.some.injEq] at h
    subst h
    simp [Node.funcDecl?]
  | FuncDecl fn =>
    simp only [collectNode] at h
    split at h
    · rename_i hrecv
      cases h
      simp [Node.funcDecl?, resolvesTo, hrecv]
    · cases h
    · rename_i f0 rest hrecv
      split at h
      · rename_i hempty
        cases h
        have hne : ¬ recvName f0.Typ = T := by
          intro e
          rw [hempty] at e
          exact hT e.symm
        simp [Node.funcDecl?, resolvesTo, hrecv, hne]
      · split at h
        · rename_i info hget
          cases h
          rw [GoMap.getD_set]
          by_cases e : recvName f0.Typ = T
          · simp [Node.funcDecl?, resolvesTo, hrecv, e]
          · simp [Node.funcDecl?, resolvesTo, hrecv, e]
        · rename_i hget
          cases h
          have hne : ¬ recvName f0.Typ = T := by
            intro e
            rw [e] at hget
            exact htag hget
          simp [Node.funcDecl?, resolvesTo, hrecv, hne]

theorem collectNodes_getD (structsToInterfaces : TaggedMap) (nodes : List Node)
    (methods methods1 : MethodMap) (T : String) (hT : T ≠ "")
    (htag : structsToInterfaces.get? T ≠ none)
    (h : collectNodes structsToInterfaces methods nodes = some methods1) :
    methods1.getD T [] =
      methods.getD T [] ++ (nodes.filterMap Node.funcDecl?).filter (resolvesTo T) := by
  induction nodes generalizing methods with
  | nil =>
    simp only [collectNodes, Option.some.injEq] at h
    subst h
    simp
  | cons n ns ih =>
    simp only [collectNodes] at h
    split at h
    · cases h
    · rename_i m1 hm1
      rw [ih m1 h, collectNode_getD structsToInterfaces methods m1 n T hT htag hm1]
      have hsplit : (n :: ns).filterMap Node.funcDecl?
          = [n].filterMap Node.funcDecl? ++ ns.filterMap Node.funcDecl? := by
        rw [← List.filterMap_append]
        rfl
      rw [hsplit, List.filter_append, List.append_assoc]

theorem collectFiles_getD (structsToInterfaces : TaggedMap) (files : List File)
    (methods methods1 : MethodMap) (T : String) (hT : T ≠ "")
    (htag : structsToInterfaces.get? T ≠ none)
    (h : collectFiles structsToInterfaces methods files = some methods1) :
    methods1.getD T [] =
      methods.getD T [] ++ (files.flatMap File.funcDecls).filter (resolvesTo T) := by
  induction files generalizing methods with
  | nil =>
    simp only [collectFiles, Option.some.injEq] at h
    subst h
    simp
  | cons f fs ih =>
    simp only [collectFiles, collectFile] at h
    split at h
    · cases h
    · rename_i m1 hm1
      rw [ih m1 h, collectNodes_getD structsToInterfaces f.nodes methods m1 T hT htag hm1,
        file_nodes_funcDecls]
      simp [List.append_assoc]

/-- C9: for a tagged type `T`, the method list collected by the second pass over the
files in processing order is the list of all function declarations whose receiver
resolves to `T`, file by file and in declaration order within a file, with nothing
removed; and the text assembled for `T` has one member line for each of them. -/
theorem C9_methods_in_discovery_order (L : Lib) (pkgName : String)
    (structsToInterfaces : TaggedMap) (files : List File) (methods : MethodMap)
    (T : String) (info : StructInfo) (hT : T ≠ "")
    (htag : structsToInterfaces.get? T = some info)
    (h : collectFiles structsToInterfaces [] files = some methods) :
    methods.getD T [] = (files.flatMap File.funcDecls).filter (resolvesTo T)
      ∧ (generateOne L pkgName methods (T, info)).2 =
          "package " ++ pkgName ++ "\n\n" ++ "type " ++ info.InterfaceName
            ++ " interface \x7b\n"
            ++ concatStrings
                (((files.flatMap File.funcDecls).filter (resolvesTo T)).map
                  (memberLine L.printExpr))
            ++ "\x7d\n" := by
  have hlist : methods.getD T [] = (files.flatMap File.funcDecls).filter (resolvesTo T) := by
    have htag1 : structsToInterfaces.get? T ≠ none := by
      rw [htag]
      exact Option.some_ne_none info
    rw [collectFiles_getD structsToInterfaces files [] methods T hT htag1 h]
    simp [GoMap.getD, GoMap.get?]
  refine ⟨hlist, ?_⟩
  show assemble L.printExpr pkgName info (methods.getD T []) = _
  rw [assemble_eq, hlist]

/-- C9 on the package `dupFiles`, where `Name` is declared on `Widget` twice: both
declarations are collected, in file order, and both are rendered. -/
theorem C9_methods_in_discovery_order_witness :
    "Widget" ≠ ""
      ∧ (scanFiles defaultMarker dupFiles []).get? "Widget"
          = some { InterfaceName := "WidgetInterface", SourceFile := "pkg/widget.go" }
      ∧ collectFiles (scanFiles defaultMarker dupFiles []) [] (dupFiles.map Prod.snd)
          = some [("Widget", [widgetName, widgetNameAgain])]
      ∧ GoMap.getD [("Widget", [widgetName, widgetNameAgain])] "Widget" []
          = ((dupFiles.map Prod.snd).flatMap File.funcDecls).filter (resolvesTo "Widget")
      ∧ ((dupFiles.map Prod.snd).flatMap File.funcDecls).filter (resolvesTo "Widget")
          = [widgetName, widgetNameAgain]
      ∧ processPackage goLib defaultMarker "pkg" dupFiles
          = some [("pkg/widget.interface.go",
              "package pkg\n\ntype WidgetInterface interface \x7b\n\tName() string\n\tName() string\n\x7d\n")] :=
  ⟨by decide, by decide, rfl,
   (C9_methods_in_discovery_order goLib "pkg" (scanFiles defaultMarker dupFiles [])
      (dupFiles.map Prod.snd) [("Widget", [widgetName, widgetNameAgain])] "Widget"
      { InterfaceName := "WidgetInterface", SourceFile := "pkg/widget.go" }
      (by decide) (by decide) rfl).1,
   rfl, by decide⟩

theorem empty_text_eq (pkgName T : String) :
    "package " ++ pkgName ++ "\n\n" ++ "type " ++ (T ++ "Interface") ++ " interface \x7b\n"
        ++ concatStrings ([] : List String) ++ "\x7d\n"
      = "package " ++ pkgName ++ "\n\ntype " ++ T ++ "Interface interface \x7b\n\x7d\n" := by
  have e1 : "\n\ntype " = "\n\n" ++ "type " := by decide
  have e2 : "Interface interface \x7b\n\x7d\n" = "Interface" ++ (" interface \x7b\n" ++ ("" ++ "\x7d\n")) := by
    decide
  rw [e1, e2]
  simp only [concatStrings, String.append_assoc]

/-- C10: a tagged type `T` for which the second pass collected no method still gets
an output: the run of the package produces, at the output path of `T`, the text
`package p\n\ntype TInterface interface {\n}\n`. -/
theorem C10_empty_interface (L : Lib) (markerComment pkgName : String)
    (files : List (String × File)) (methods : MethodMap) (T : String) (info : StructInfo)
    (hT : (scanFiles markerComment files []).get? T = some info)
    (hc : collectFiles (scanFiles markerComment files []) [] (files.map Prod.snd)
      = some methods)
    (hnone : methods.get? T = none) :
    (generateOne L pkgName methods (T, info)).2
        = "package " ++ pkgName ++ "\n\ntype " ++ T ++ "Interface interface \x7b\n\x7d\n"
      ∧ ∃ outs, processPackage L markerComment pkgName files = some outs
          ∧ (ifacePath L info,
              "package " ++ pkgName ++ "\n\ntype " ++ T ++ "Interface interface \x7b\n\x7d\n")
            ∈ outs := by
  have hname : info.InterfaceName = T ++ "Interface" :=
    namedByKey_scanFiles markerComment files [] namedByKey_empty T info hT
  have hnil : methods.getD T [] = [] := by
    simp [GoMap.getD, hnone]
  have htext : (generateOne L pkgName methods (T, info)).2
      = "package " ++ pkgName ++ "\n\ntype " ++ T ++ "Interface interface \x7b\n\x7d\n" := by
    show assemble L.printExpr pkgName info (methods.getD T []) = _
    rw [assemble_eq, hnil, hname]
    exact empty_text_eq pkgName T
  refine ⟨htext, generate L pkgName (scanFiles markerComment files []) methods, ?_, ?_⟩
  · simp only [processPackage, hc]
  · rw [← htext]
    unfold generate
    exact List.mem_map_of_mem (generateOne L pkgName methods) (GoMap.mem_of_get? _ T info hT)

/-- C10 on the package `builderFiles`, whose tagged type has no method. -/
theorem C10_empty_interface_witness :
    (scanFiles defaultMarker builderFiles []).get? "InterfaceBuilder"
        = some { InterfaceName := "InterfaceBuilderInterface", SourceFile := "pkg/builder.go" }
      ∧ collectFiles (scanFiles defaultMarker builderFiles []) []
          (builderFiles.map Prod.snd) = some []
      ∧ GoMap.get? ([] : MethodMap) "InterfaceBuilder" = none
      ∧ (generateOne goLib "pkg" []
          ("InterfaceBuilder",
            { InterfaceName := "InterfaceBuilderInterface", SourceFile := "pkg/builder.go" })).2
          = "package pkg\n\ntype InterfaceBuilderInterface interface \x7b\n\x7d\n" :=
  ⟨by decide, rfl, rfl,
   (C10_empty_interface goLib defaultMarker "pkg" builderFiles [] "InterfaceBuilder"
      { InterfaceName := "InterfaceBuilderInterface", SourceFile := "pkg/builder.go" }
      (by decide) rfl rfl).1.trans (by decide)⟩

/-! ## Tagging, as a decidable test -/

theorem hasMarker_iff (markerComment : String) (doc : CommentGroup) :
    hasMarker markerComment doc = true ↔
      ∃ list, doc = some list ∧ ∃ c ∈ list, c.Text = markerComment := by
  cases doc with
  | none => simp [hasMarker]
  | some list => simp [hasMarker]

theorem structName?_eq_some (s : Spec) (T : String) :
    s.structName? = some T ↔
      ∃ ts, s = Spec.TypeSpec ts ∧ ts.Name = T ∧ ∃ fields, ts.Typ = Expr.StructType fields := by
  cases s with
  | TypeSpec ts =>
    cases hty : ts.Typ with
    | StructType fields =>
      simp only [Spec.structName?, hty, Option.some.injEq]
      constructor
      · intro h
        exact ⟨ts, rfl, h, fields, hty⟩
      · rintro ⟨ts1, hts, hname, _⟩
        cases hts
        exact hname
    | _ =>
      simp only [Spec.structName?, hty]
      constructor
      · intro h
        cases h
      · rintro ⟨ts1, hts, _, fields, hf⟩
        cases hts
        rw [hty] at hf
        cases hf
  | ImportSpec p =>
    simp only [Spec.structName?]
    constructor
    · intro h
      cases h
    · rintro ⟨ts1, hts, _⟩
      cases hts
  | ValueSpec ns =>
    simp only [Spec.structName?]
    constructor
    · intro h
      cases h
    · rintro ⟨ts1, hts, _⟩
      cases hts

theorem genDecl_tags_iff (markerComment : String) (gen : GenDecl) (T : String) :
    gen.tags markerComment T = true ↔
      gen.Tok = Token.TYPE
        ∧ (∃ list, gen.Doc = some list ∧ ∃ c ∈ list, c.Text = markerComment)
        ∧ ∃ ts, Spec.TypeSpec ts ∈ gen.Specs ∧ ts.Name = T
          ∧ ∃ fields, ts.Typ = Expr.StructType fields := by
  unfold GenDecl.tags
  simp only [Bool.and_eq_true, decide_eq_true_eq, hasMarker_iff, List.any_eq_true,
    structName?_eq_some]
  constructor
  · rintro ⟨⟨htok, hdoc⟩, s, hs, ts, hts, hname, hstruct⟩
    subst hts
    exact ⟨htok, hdoc, ts, hs, hname, hstruct⟩
  · rintro ⟨htok, hdoc, ts, hs, hname, hstruct⟩
    exact ⟨⟨htok, hdoc⟩, Spec.TypeSpec ts, hs, ts, rfl, hname, hstruct⟩

theorem file_tags_iff (markerComment : String) (file : File) (T : String) :
    File.tags markerComment file T = true ↔
      ∃ gen, Node.GenDecl gen ∈ file.nodes ∧ gen.Tok = Token.TYPE
        ∧ (∃ list, gen.Doc = some list ∧ ∃ c ∈ list, c.Text = markerComment)
        ∧ ∃ ts, Spec.TypeSpec ts ∈ gen.Specs ∧ ts.Name = T
          ∧ ∃ fields, ts.Typ = Expr.StructType fields := by
  unfold File.tags
  simp only [List.any_eq_true]
  constructor
  · rintro ⟨n, hn, h⟩
    cases n with
    | GenDecl gen => exact ⟨gen, hn, (genDecl_tags_iff markerComment gen T).mp h⟩
    | FuncDecl fn => cases h
  · rintro ⟨gen, hn, h⟩
    exact ⟨Node.GenDecl gen, hn, (genDecl_tags_iff markerComment gen T).mpr h⟩

theorem scanFile_tagged (markerComment filename : String) (file : File) (m : TaggedMap)
    (T : String) (h : File.tags markerComment file T = true) :
    (scanFile markerComment filename file m).get? T
      = some { InterfaceName := T ++ "Interface", SourceFile := filename } :=
  (registers_scanFile markerComment filename file m T).1
    ((file_tags_iff markerComment file T).mp h)

theorem scanFile_not_tagged (markerComment filename : String) (file : File) (m : TaggedMap)
    (T : String) (h : File.tags markerComment file T = false) :
    (scanFile markerComment filename file m).get? T = m.get? T := by
  apply (registers_scanFile markerComment filename file m T).2
  intro q
  rw [(file_tags_iff markerComment file T).mpr q] at h
  cases h

theorem scanFiles_append (markerComment : String) (a b : List (String × File))
    (m : TaggedMap) :
    scanFiles markerComment (a ++ b) m
      = scanFiles markerComment b (scanFiles markerComment a m) := by
  unfold scanFiles
  rw [List.foldl_append]

theorem scanFiles_cons (markerComment : String) (p : String × File)
    (rest : List (String × File)) (m : TaggedMap) :
    scanFiles markerComment (p :: rest) m
      = scanFiles markerComment rest (scanFile markerComment p.1 p.2 m) := rfl

theorem scanFiles_not_tagged (markerComment : String) (files : List (String × File))
    (m : TaggedMap) (T : String)
    (h : ∀ p ∈ files, File.tags markerComment p.2 T = false) :
    (scanFiles markerComment files m).get? T = m.get? T := by
  induction files generalizing m with
  | nil => rfl
  | cons p rest ih =>
    rw [scanFiles_cons, ih _ (fun q hq => h q (List.mem_cons_of_mem _ hq))]
    exact scanFile_not_tagged markerComment p.1 p.2 m T (h p (List.mem_cons_self _ _))

/-! ## Invariants of the first pass -/

theorem scanFiles_invariant (P : TaggedMap → Prop)
    (hset : ∀ (m : TaggedMap) (k : String) (v : StructInfo), P m → P (m.set k v))
    (markerComment : String) (files : List (String × File)) (m : TaggedMap) (h : P m) :
    P (scanFiles markerComment files m) := by
  have hfold : ∀ {α : Type} (f : TaggedMap → α → TaggedMap),
      (∀ m a, P m → P (f m a)) → ∀ (l : List α) (m : TaggedMap), P m → P (l.foldl f m) := by
    intro α f hf l
    induction l with
    | nil => intro m hm; exact hm
    | cons a as ih => intro m hm; exact ih (f m a) (hf m a hm)
  have hspec : ∀ (filename : String) (gen : GenDecl) (m : TaggedMap) (spec : Spec),
      P m → P (scanSpec markerComment filename gen m spec) := by
    intro filename gen m spec hm
    unfold scanSpec
    split
    · split
      · split
        · apply hfold _ _ _ m hm
          intro m1 c hm1
          split
          · exact hset m1 _ _ hm1
          · exact hm1
        · exact hm
      · exact hm
    · exact hm
  have hnode : ∀ (filename : String) (m : TaggedMap) (n : Node),
      P m → P (scanNode markerComment filename m n) := by
    intro filename m n hm
    unfold scanNode
    split
    · split
      · exact hm
      · exact hfold _ (fun m1 s h1 => hspec filename _ m1 s h1) _ m hm
    · exact hm
  unfold scanFiles
  apply hfold _ _ files m h
  intro m1 p hm1
  unfold scanFile
  exact hfold _ (fun m2 n h2 => hnode p.1 m2 n h2) _ m1 hm1

theorem GoMap.keys_set {V : Type} (m : GoMap V) (k : String) (v : V) :
    (m.set k v).keys = if k ∈ m.keys then m.keys else m.keys ++ [k] := by
  induction m with
  | nil => simp [GoMap.set, GoMap.keys]
  | cons p rest ih =>
    obtain ⟨a, b⟩ := p
    by_cases hak : a = k
    · subst hak
      simp [GoMap.set, GoMap.keys]
    · have hka : ¬ k = a := fun h => hak h.symm
      simp only [GoMap.keys] at ih
      by_cases hmem : k ∈ List.map Prod.fst rest
      · simp [GoMap.set, GoMap.keys, hak, hka, hmem, ih]
      · simp [GoMap.set, GoMap.keys, hak, hka, hmem, ih]

theorem GoMap.nodup_keys_set {V : Type} (m : GoMap V) (k : String) (v : V)
    (h : m.keys.Nodup) : (m.set k v).keys.Nodup := by
  rw [GoMap.keys_set]
  by_cases hmem : k ∈ m.keys
  · simp only [hmem, if_true]
    exact h
  · simp only [hmem, if_false]
    rw [List.nodup_append]
    refine ⟨h, List.nodup_singleton k, ?_⟩
    intro x hx hx1
    simp only [List.mem_singleton] at hx1
    subst hx1
    exact hmem hx

theorem scanFiles_nodup_keys (markerComment : String) (files : List (String × File)) :
    (scanFiles markerComment files []).keys.Nodup :=
  scanFiles_invariant (fun m => m.keys.Nodup)
    (fun m k v h => GoMap.nodup_keys_set m k v h) markerComment files []
    (by simp [GoMap.keys])

/-! ## The run -/

/-- C13: the error paths of a run.  A parse error of the directory and an error of
`imports.Process` end the run with a panic at that point; an error of `os.WriteFile`
does not: the loop goes on with the next tagged type and the run reaches its end.  On
a directory that cannot be written the run `tool pkg` ends normally, without any file
written. -/
theorem C13_write_error_is_dropped :
    main readOnlySys goLib ["tool", "pkg"] = { written := [], outcome := .finished }
      ∧ main okSys goLib ["tool", "nowhere"]
          = { written := [],
              outcome := .panicked "open nowhere: no such file or directory" }
      ∧ main brokenImportsSys goLib ["tool", "pkg"]
          = { written := [],
              outcome := .panicked "pkg/widget.interface.go:1:1: expected declaration" }
      ∧ (∀ (S : Sys) (L : Lib) (args : List String) (err : String),
          2 ≤ args.length → S.parseDir (args.getD 1 "") = .error err →
          main S L args = { written := [], outcome := .panicked err })
      ∧ (∀ (S : Sys) (L : Lib) (pkgName : String) (methods : MethodMap)
          (entry : String × StructInfo) (rest : List (String × StructInfo))
          (written : List (String × String)) (err : String),
          S.importsProcess (generateOne L pkgName methods entry).1
            (generateOne L pkgName methods entry).2 = .error err →
          writeLoop S L pkgName methods (entry :: rest) written
            = { written := written, outcome := .panicked err })
      ∧ (∀ (S : Sys) (L : Lib) (pkgName : String) (methods : MethodMap)
          (entry : String × StructInfo) (rest : List (String × StructInfo))
          (written : List (String × String)) (formatted err : String),
          S.importsProcess (generateOne L pkgName methods entry).1
            (generateOne L pkgName methods entry).2 = .ok formatted →
          S.writeFile (generateOne L pkgName methods entry).1 formatted = some err →
          writeLoop S L pkgName methods (entry :: rest) written
            = writeLoop S L pkgName methods rest written) := by
  refine ⟨by decide, by decide, by decide, ?_, ?_, ?_⟩
  · intro S L args err hlen hparse
    have hnot : ¬ args.length < 2 := by omega
    simp only [main, hnot, if_false, hparse]
  · intro S L pkgName methods entry rest written err himp
    simp only [writeLoop, himp]
  · intro S L pkgName methods entry rest written formatted err himp hwrite
    simp only [writeLoop, himp, hwrite]

/-! ## Scanning, case by case -/

theorem comments_foldl_no_marker (markerComment : String) (name : String)
    (info : StructInfo) (list : List Comment) (m : TaggedMap)
    (h : ∀ c ∈ list, ¬ c.Text = markerComment) :
    list.foldl (fun m comment =>
      if comment.Text = markerComment then m.set name info else m) m = m := by
  induction list generalizing m with
  | nil => rfl
  | cons c cs ih =>
    simp only [List.foldl_cons, h c (List.mem_cons_self _ _), if_false]
    exact ih m (fun c1 hc1 => h c1 (List.mem_cons_of_mem _ hc1))

theorem scanSpec_no_marker (markerComment filename : String) (gen : GenDecl)
    (m : TaggedMap) (spec : Spec) (h : hasMarker markerComment gen.Doc = false) :
    scanSpec markerComment filename gen m spec = m := by
  unfold scanSpec
  split
  · split
    · split
      · rename_i list hdoc
        apply comments_foldl_no_marker
        intro c hc htext
        have : hasMarker markerComment gen.Doc = true :=
          (hasMarker_iff markerComment gen.Doc).mpr ⟨list, hdoc, c, hc, htext⟩
        rw [h] at this
        cases this
      · rfl
    · rfl
  · rfl

theorem foldl_fixed {α β : Type} (f : β → α → β) (l : List α) (b : β)
    (h : ∀ a ∈ l, f b a = b) : l.foldl f b = b := by
  induction l with
  | nil => rfl
  | cons a as ih =>
    simp only [List.foldl_cons, h a (List.mem_cons_self _ _)]
    exact ih (fun a1 h1 => h a1 (List.mem_cons_of_mem _ h1))

theorem scanNode_no_marker (markerComment filename : String) (gen : GenDecl)
    (m : TaggedMap) (h : hasMarker markerComment gen.Doc = false) :
    scanNode markerComment filename m (Node.GenDecl gen) = m := by
  unfold scanNode
  simp only
  split
  · rfl
  · exact foldl_fixed _ _ _ (fun s _ => scanSpec_no_marker markerComment filename gen m s h)

/-- C19: the marker is read from the comment group of the whole declaration.  When it
is there, every struct spec of the declaration is registered; when it is not, the
declaration registers nothing, whatever the comment groups of its specs hold.  In the
group `type ( A struct{}; B struct{}; C int )` a marker above the spec of `A`
registers nothing, a marker above `type` registers `A` and `B`. -/
theorem C19_marker_of_declaration (markerComment filename : String) (gen : GenDecl)
    (structsToInterfaces : TaggedMap) :
    (gen.Tok = Token.TYPE → hasMarker markerComment gen.Doc = true →
        ∀ ts, Spec.TypeSpec ts ∈ gen.Specs → (∃ fields, ts.Typ = Expr.StructType fields) →
          (scanNode markerComment filename structsToInterfaces (Node.GenDecl gen)).get? ts.Name
            = some { InterfaceName := ts.Name ++ "Interface", SourceFile := filename })
      ∧ (hasMarker markerComment gen.Doc = false →
          scanNode markerComment filename structsToInterfaces (Node.GenDecl gen)
            = structsToInterfaces)
      ∧ scanNode defaultMarker "pkg/g.go" [] (Node.GenDecl groupInner) = []
      ∧ scanNode defaultMarker "pkg/g.go" [] (Node.GenDecl groupOuter)
          = [("A", { InterfaceName := "AInterface", SourceFile := "pkg/g.go" }),
             ("B", { InterfaceName := "BInterface", SourceFile := "pkg/g.go" })] := by
  refine ⟨?_, scanNode_no_marker markerComment filename gen structsToInterfaces,
    by decide, by decide⟩
  intro htok hdoc ts hts hstruct
  apply (registers_scanNode markerComment filename structsToInterfaces
    (Node.GenDecl gen) ts.Name).1
  exact ⟨gen, rfl, htok, (hasMarker_iff markerComment gen.Doc).mp hdoc, ts, hts, rfl, hstruct⟩

/-- C15: when a file `f2` tags `T` and no file processed after it does, the
tagged-type map after the first pass holds exactly one entry for `T`, with source file
`f2` and interface name `T ++ "Interface"`, whatever files were processed before `f2`
(in particular a file `f1` that tags `T` too). -/
theorem C15_last_write_wins (markerComment : String) (before after : List (String × File))
    (f2 : String) (file2 : File) (T : String)
    (h2 : File.tags markerComment file2 T = true)
    (hafter : ∀ p ∈ after, File.tags markerComment p.2 T = false) :
    (scanFiles markerComment (before ++ (f2, file2) :: after) []).get? T
        = some { InterfaceName := T ++ "Interface", SourceFile := f2 }
      ∧ (scanFiles markerComment (before ++ (f2, file2) :: after) []).keys.count T = 1 := by
  have hget : (scanFiles markerComment (before ++ (f2, file2) :: after) []).get? T
      = some { InterfaceName := T ++ "Interface", SourceFile := f2 } := by
    rw [scanFiles_append, scanFiles_cons, scanFiles_not_tagged markerComment after _ T hafter]
    exact scanFile_tagged markerComment f2 file2 _ T h2
  refine ⟨hget, ?_⟩
  apply List.count_eq_one_of_mem (scanFiles_nodup_keys markerComment _)
  rw [GoMap.mem_keys_iff]
  exact ⟨_, hget⟩

/-- C15 on `twiceFiles`: `Widget` is tagged in `pkg/a.go` and in `pkg/b.go`; the one
entry left is that of `pkg/b.go`. -/
theorem C15_last_write_wins_witness :
    File.tags defaultMarker { Name := "pkg", Decls := [widgetDecl] } "Widget" = true
      ∧ scanFiles defaultMarker twiceFiles []
          = [("Widget", { InterfaceName := "WidgetInterface", SourceFile := "pkg/b.go" })]
      ∧ (scanFiles defaultMarker
            ([("pkg/a.go", { Name := "pkg", Decls := [widgetDecl] })]
              ++ ("pkg/b.go", { Name := "pkg", Decls := [widgetDecl] })
                :: [("pkg/c.go", { Name := "pkg", Decls := [.FuncDecl helperFunc] })])
            []).get? "Widget"
          = some { InterfaceName := "Widget" ++ "Interface", SourceFile := "pkg/b.go" } :=
  ⟨by decide, by decide,
   (C15_last_write_wins defaultMarker
      [("pkg/a.go", { Name := "pkg", Decls := [widgetDecl] })]
      [("pkg/c.go", { Name := "pkg", Decls := [.FuncDecl helperFunc] })]
      "pkg/b.go" { Name := "pkg", Decls := [widgetDecl] } "Widget"
      (by decide) (by decide)).1⟩

/-- C18: the second pass on a function declaration.  With a receiver list of at least
one field the step succeeds, and what it does is fixed by the type of field 0: the
method map is left as it is when that type resolves to no name or to a name that is
not registered, and the declaration is appended to the list of that name otherwise;
the names of field 0 and the further fields play no part.  With a receiver list
without field the step fails; without receiver list the declaration is skipped. -/
theorem C18_first_receiver_field (structsToInterfaces : TaggedMap) (methods : MethodMap)
    (fn : FuncDecl) :
    (∀ (f0 : Field) (rest : List Field), fn.Recv = some (f0 :: rest) →
        (collectNode structsToInterfaces methods (Node.FuncDecl fn) = some methods
          ∧ (recvName f0.Typ = "" ∨ structsToInterfaces.get? (recvName f0.Typ) = none))
        ∨ (collectNode structsToInterfaces methods (Node.FuncDecl fn)
            = some (methods.set (recvName f0.Typ)
                (methods.getD (recvName f0.Typ) [] ++ [fn]))
          ∧ recvName f0.Typ ≠ ""
          ∧ ∃ info, structsToInterfaces.get? (recvName f0.Typ) = some info))
      ∧ (∀ (names1 names2 : List String) (t : Expr) (rest1 rest2 : List Field),
          (collectNode structsToInterfaces methods
              (Node.FuncDecl { fn with Recv := some (Field.mk names1 t :: rest1) })).map
            GoMap.keys
          = (collectNode structsToInterfaces methods
              (Node.FuncDecl { fn with Recv := some (Field.mk names2 t :: rest2) })).map
            GoMap.keys)
      ∧ (fn.Recv = some [] →
          collectNode structsToInterfaces methods (Node.FuncDecl fn) = none)
      ∧ (fn.Recv = none →
          collectNode structsToInterfaces methods (Node.FuncDecl fn) = some methods)
      ∧ collectNode structsToInterfaces methods (Node.FuncDecl emptyRecvDecl) = none := by
  refine ⟨?_, ?_, ?_, ?_, rfl⟩
  · intro f0 rest hrecv
    by_cases hempty : recvName f0.Typ = ""
    · left
      exact ⟨by simp only [collectNode, hrecv, hempty, if_true], Or.inl hempty⟩
    · cases hget : structsToInterfaces.get? (recvName f0.Typ) with
      | none =>
        left
        exact ⟨by simp only [collectNode, hrecv, hempty, if_false, hget], Or.inr rfl⟩
      | some info =>
        right
        exact ⟨by simp only [collectNode, hrecv, hempty, if_false, hget], hempty, info, rfl⟩
  · intro names1 names2 t rest1 rest2
    simp only [collectNode, Field.Typ]
    by_cases hempty : recvName t = ""
    · simp only [hempty, if_true]
    · simp only [hempty, if_false]
      cases hget : structsToInterfaces.get? (recvName t) with
      | none => rfl
      | some info =>
        simp only [Option.map_some']
        rw [GoMap.keys_set, GoMap.keys_set]
  · intro hrecv
    simp only [collectNode, hrecv]
  · intro hrecv
    simp only [collectNode, hrecv]

/-! ## The file name: cutting at the first `interface` -/

theorem isPrefixOf_interface_straddle (y : List Char) (hy : y ≠ [])
    (h : "interface".data.isPrefixOf (y ++ "interface".data) = true) :
    "interface".data.isPrefixOf y = true := by
  rcases y with _ | ⟨a1, _ | ⟨a2, _ | ⟨a3, _ | ⟨a4, _ | ⟨a5, _ | ⟨a6, _ | ⟨a7, _ | ⟨a8, _ | ⟨a9, rest⟩⟩⟩⟩⟩⟩⟩⟩⟩
  · exact absurd rfl hy
  all_goals simp [List.isPrefixOf] at h ⊢
  · exact h

theorem lower_interface_suffix (lowerNonASCII : Char → Char) (T : String) :
    (stringsToLower lowerNonASCII (T ++ "Interface")).data
      = (stringsToLower lowerNonASCII T).data ++ "interface".data := by
  simp only [stringsToLower, String.data_append, List.map_append]
  rfl

theorem string_append_left_cancel (a b c : String) (h : a ++ b = a ++ c) : b = c := by
  have hd : (a ++ b).data = (a ++ c).data := by rw [h]
  rw [String.data_append, String.data_append] at hd
  exact String.ext (List.append_cancel_left hd)

theorem string_append_right_cancel (a b c : String) (h : a ++ c = b ++ c) : a = b := by
  have hd : (a ++ c).data = (b ++ c).data := by rw [h]
  rw [String.data_append, String.data_append] at hd
  exact String.ext (List.append_cancel_right hd)

theorem indexChars_beforeFirst (sep : List Char) (hsep : sep ≠ []) (x : List Char) :
    (indexChars sep x = none ∧ beforeFirst sep x = x)
      ∨ ∃ m, indexChars sep x = some m ∧ beforeFirst sep x = x.take m := by
  induction x with
  | nil =>
    left
    cases sep with
    | nil => exact absurd rfl hsep
    | cons a as => exact ⟨rfl, rfl⟩
  | cons c cs ih =>
    by_cases hp : sep.isPrefixOf (c :: cs) = true
    · right
      refine ⟨0, ?_, ?_⟩
      · simp only [indexChars, hp, if_true]
      · simp only [beforeFirst, hp, if_true, List.take_zero]
    · rcases ih with ⟨hnone, hb⟩ | ⟨m, hsome, hb⟩
      · left
        refine ⟨?_, ?_⟩
        · simp only [indexChars, hp, hnone, Option.map_none']
          rfl
        · simp only [beforeFirst, hp, hb]
          rfl
      · right
        refine ⟨m + 1, ?_, ?_⟩
        · simp only [indexChars, hp, hsome, Option.map_some']
          rfl
        · simp only [beforeFirst, hp, hb, List.take_succ_cons]
          rfl

theorem genSplit_head (sep : List Char) (hsep : sep ≠ []) (n : Nat) (x : List Char) :
    (genSplit sep (n + 1) x).headD [] = beforeFirst sep x := by
  rcases indexChars_beforeFirst sep hsep x with ⟨hnone, hb⟩ | ⟨m, hsome, hb⟩
  · simp only [genSplit, hnone, List.headD_cons, hb]
  · simp only [genSplit, hsome, List.headD_cons, hb]

theorem isPrefixOf_append_right (sep x y : List Char) (h : sep.isPrefixOf x = true) :
    sep.isPrefixOf (x ++ y) = true := by
  rw [List.isPrefixOf_iff_prefix] at h ⊢
  exact h.trans (List.prefix_append x y)

theorem beforeFirst_append_of_not_contains (sep : List Char) (hsep : sep ≠ [])
    (hfree : ∀ y : List Char, y ≠ [] → sep.isPrefixOf (y ++ sep) = true →
      sep.isPrefixOf y = true)
    (x : List Char) (h : containsChars sep x = false) :
    beforeFirst sep (x ++ sep) = x ∧ indexChars sep (x ++ sep) = some x.length := by
  induction x with
  | nil =>
    cases sep with
    | nil => exact absurd rfl hsep
    | cons a as =>
      have hself : (a :: as).isPrefixOf (a :: as) = true :=
        List.isPrefixOf_iff_prefix.mpr (List.prefix_refl _)
      refine ⟨?_, ?_⟩
      · simp only [List.nil_append, beforeFirst, hself, if_true]
      · simp only [List.nil_append, indexChars, hself, if_true, List.length_nil]
  | cons c cs ih =>
    simp only [containsChars, Bool.or_eq_false_iff] at h
    have hp1 : ¬ sep.isPrefixOf (c :: (cs ++ sep)) = true := by
      intro hq
      have := hfree (c :: cs) (List.cons_ne_nil c cs) hq
      rw [h.1] at this
      cases this
    obtain ⟨ih1, ih2⟩ := ih h.2
    refine ⟨?_, ?_⟩
    · rw [List.cons_append, beforeFirst, if_neg hp1, ih1]
    · rw [List.cons_append, indexChars, if_neg hp1, ih2]
      rfl

theorem beforeFirst_append_of_contains (sep : List Char)
    (hfree : ∀ y : List Char, y ≠ [] → sep.isPrefixOf (y ++ sep) = true →
      sep.isPrefixOf y = true)
    (x : List Char) (h : containsChars sep x = true) (hsep : sep ≠ []) :
    beforeFirst sep (x ++ sep) = beforeFirst sep x := by
  induction x with
  | nil =>
    simp only [containsChars, List.isEmpty_iff] at h
    exact absurd h hsep
  | cons c cs ih =>
    by_cases hp : sep.isPrefixOf (c :: cs) = true
    · have hq1 : sep.isPrefixOf (c :: (cs ++ sep)) = true :=
        isPrefixOf_append_right sep (c :: cs) sep hp
      rw [List.cons_append, beforeFirst, if_pos hq1, beforeFirst, if_pos hp]
    · have hq : ¬ sep.isPrefixOf (c :: (cs ++ sep)) = true := by
        intro hq
        exact hp (hfree (c :: cs) (List.cons_ne_nil c cs) hq)
      have hcs : containsChars sep cs = true := by
        simp only [containsChars, Bool.or_eq_true] at h
        rcases h with h | h
        · exact absurd h hp
        · exact h
      rw [List.cons_append, beforeFirst, if_neg hq, beforeFirst, if_neg hp, ih hcs]

theorem beforeFirst_append_interface_of_not_contains (x : List Char)
    (h : containsChars "interface".data x = false) :
    beforeFirst "interface".data (x ++ "interface".data) = x
      ∧ indexChars "interface".data (x ++ "interface".data) = some x.length :=
  beforeFirst_append_of_not_contains "interface".data (by decide)
    isPrefixOf_interface_straddle x h

theorem beforeFirst_append_interface_of_contains (x : List Char)
    (h : containsChars "interface".data x = true) :
    beforeFirst "interface".data (x ++ "interface".data) = beforeFirst "interface".data x :=
  beforeFirst_append_of_contains "interface".data isPrefixOf_interface_straddle x h
    (by decide)

theorem beforeFirst_decompose (sep x : List Char) (h : containsChars sep x = true) :
    ∃ rest, x = beforeFirst sep x ++ sep ++ rest := by
  induction x with
  | nil =>
    simp only [containsChars, List.isEmpty_iff] at h
    subst h
    exact ⟨[], rfl⟩
  | cons c cs ih =>
    by_cases hp : sep.isPrefixOf (c :: cs) = true
    · obtain ⟨t, ht⟩ := List.isPrefixOf_iff_prefix.mp hp
      refine ⟨t, ?_⟩
      simp only [beforeFirst, hp, if_true, List.nil_append]
      exact ht.symm
    · have hcs : containsChars sep cs = true := by
        simp only [containsChars, Bool.or_eq_true] at h
        rcases h with h | h
        · exact absurd h hp
        · exact h
      obtain ⟨rest, hrest⟩ := ih hcs
      refine ⟨rest, ?_⟩
      simp only [beforeFirst, hp]
      show c :: cs = c :: (beforeFirst sep cs ++ sep ++ rest)
      rw [← hrest]

theorem ifaceFileName_eq (L : Lib) (T sourceFile : String) :
    ifaceFileName L { InterfaceName := T ++ "Interface", SourceFile := sourceFile }
      = String.mk (beforeFirst "interface".data
          ((stringsToLower L.lowerNonASCII T).data ++ "interface".data))
        ++ ".interface.go" := by
  have hdata := lower_interface_suffix L.lowerNonASCII T
  have hlen : (stringsToLower L.lowerNonASCII (T ++ "Interface")).length
      = ((stringsToLower L.lowerNonASCII T).data.length + 8) + 1 := by
    show (stringsToLower L.lowerNonASCII (T ++ "Interface")).data.length = _
    rw [hdata, List.length_append]
    rfl
  unfold ifaceFileName stringsSplit
  simp only [hlen, hdata]
  have hhead : ∀ l : List (List Char), (l.map String.mk).headD "" = String.mk (l.headD []) := by
    intro l
    cases l <;> rfl
  rw [hhead, genSplit_head _ (by decide)]

theorem ifaceFileName_of_not_contains (L : Lib) (T sourceFile : String)
    (h : stringsContains (stringsToLower L.lowerNonASCII T) "interface" = false) :
    ifaceFileName L { InterfaceName := T ++ "Interface", SourceFile := sourceFile }
      = stringsToLower L.lowerNonASCII T ++ ".interface.go" := by
  rw [ifaceFileName_eq,
    (beforeFirst_append_interface_of_not_contains (stringsToLower L.lowerNonASCII T).data h).1]

/-- C17: the output file name of a type `T`.  When the lower-cased name does not
contain `interface`, the first occurrence of `interface` in the lower-cased interface
name starts at the length of the lower-cased name and the file name is that name
followed by `.interface.go`; when it does, the file name is the part of the lower-cased
name before its first occurrence of `interface`, followed by `.interface.go`. -/
theorem C17_file_name (L : Lib) (T sourceFile : String) :
    (stringsContains (stringsToLower L.lowerNonASCII T) "interface" = false →
        ifaceFileName L { InterfaceName := T ++ "Interface", SourceFile := sourceFile }
            = stringsToLower L.lowerNonASCII T ++ ".interface.go"
          ∧ indexChars "interface".data
              (stringsToLower L.lowerNonASCII (T ++ "Interface")).data
            = some (stringsToLower L.lowerNonASCII T).length)
      ∧ (stringsContains (stringsToLower L.lowerNonASCII T) "interface" = true →
        ifaceFileName L { InterfaceName := T ++ "Interface", SourceFile := sourceFile }
            = String.mk (beforeFirst "interface".data (stringsToLower L.lowerNonASCII T).data)
                ++ ".interface.go"
          ∧ ∃ rest, (stringsToLower L.lowerNonASCII T).data
              = beforeFirst "interface".data (stringsToLower L.lowerNonASCII T).data
                  ++ "interface".data ++ rest)
      ∧ ifaceFileName goLib { InterfaceName := "WidgetInterface", SourceFile := "pkg/w.go" }
          = "widget.interface.go"
      ∧ ifaceFileName goLib
          { InterfaceName := "MyInterfaceImplInterface", SourceFile := "pkg/m.go" }
          = "my.interface.go" := by
  refine ⟨?_, ?_, by decide, by decide⟩
  · intro h
    have hb := beforeFirst_append_interface_of_not_contains
      (stringsToLower L.lowerNonASCII T).data h
    refine ⟨?_, ?_⟩
    · rw [ifaceFileName_eq, hb.1]
    · rw [lower_interface_suffix, hb.2]
      rfl
  · intro h
    refine ⟨?_, beforeFirst_decompose _ _ h⟩
    rw [ifaceFileName_eq, beforeFirst_append_interface_of_contains _ h]

/-! ## Declarations inside function bodies -/

theorem mem_stmtsNodes (body : List Stmt) (s : Stmt) (n : Node) (hs : s ∈ body)
    (hn : n ∈ s.nodes) : n ∈ stmtsNodes body := by
  induction body with
  | nil => cases hs
  | cons s1 ss ih =>
    simp only [stmtsNodes, List.mem_append]
    rcases List.mem_cons.mp hs with h | h
    · left
      rw [← h]
      exact hn
    · right
      exact ih h

theorem mem_exprsNodes (values : List ValueExpr) (x : ValueExpr) (n : Node) (hx : x ∈ values)
    (hn : n ∈ x.nodes) : n ∈ exprsNodes values := by
  induction values with
  | nil => cases hx
  | cons x1 xs ih =>
    simp only [exprsNodes, List.mem_append]
    rcases List.mem_cons.mp hx with h | h
    · left
      rw [← h]
      exact hn
    · right
      exact ih h

theorem mem_specsNodes (specs : List Spec) (s : Spec) (n : Node) (hs : s ∈ specs)
    (hn : n ∈ s.nodes) : n ∈ specsNodes specs := by
  induction specs with
  | nil => cases hs
  | cons s1 ss ih =>
    simp only [specsNodes, List.mem_append]
    rcases List.mem_cons.mp hs with h | h
    · left
      rw [← h]
      exact hn
    · right
      exact ih h

theorem mem_file_nodes_of_body (file : File) (fn : FuncDecl) (body : List Stmt) (n : Node)
    (hfn : Decl.FuncDecl fn ∈ file.Decls) (hbody : fn.Body = some body)
    (hn : n ∈ stmtsNodes body) : n ∈ file.nodes := by
  unfold File.nodes
  rw [List.mem_flatMap]
  refine ⟨Decl.FuncDecl fn, hfn, ?_⟩
  simp only [Decl.nodes, hbody, List.mem_cons]
  right
  exact hn

theorem mem_file_nodes_of_values (file : File) (d : GenDecl) (n : Node)
    (hd : Decl.GenDecl d ∈ file.Decls) (hn : n ∈ specsNodes d.Specs) : n ∈ file.nodes := by
  unfold File.nodes
  rw [List.mem_flatMap]
  refine ⟨Decl.GenDecl d, hd, ?_⟩
  simp only [Decl.nodes, List.mem_cons]
  right
  exact hn

theorem declStmt_nodes (d : GenDecl) :
    (Stmt.DeclStmt d).nodes = Node.GenDecl d :: specsNodes d.Specs := rfl

/-- The local declaration of C16 is registered: `localFile` holds no type declaration
but `type Local struct{}` in the body of `func run()`, with the marker above it, and
the first pass registers `Local`. -/
theorem C16_counterexample :
    localFile.Decls = [Decl.FuncDecl runFunc]
      ∧ runFunc.Body = some [Stmt.ExprStmt (ValueExpr.BasicLit "0"), Stmt.DeclStmt localDecl]
      ∧ scanFile defaultMarker "pkg/local.go" localFile []
          = [("Local", { InterfaceName := "LocalInterface", SourceFile := "pkg/local.go" })] := by
  refine ⟨rfl, rfl, by decide⟩

/-- C16 (amended): the first pass inspects every type declaration that the traversal
of the file meets, at top level and inside function bodies at any depth (nested
blocks, bodies of function literals): a struct type of such a declaration is
registered when the comment group of the declaration contains the marker.  The nodes
met below the body of a top-level function, below the values of a top-level
declaration, below a statement of a statement list, below a value of a value list and
below the body of a function literal are nodes of the file. -/
theorem C16_local_declarations_are_scanned (markerComment filename : String) (file : File)
    (structsToInterfaces : TaggedMap) (gen : GenDecl) (ts : TypeSpec) (fields : List Field)
    (hnode : Node.GenDecl gen ∈ file.nodes) (htok : gen.Tok = Token.TYPE)
    (hdoc : hasMarker markerComment gen.Doc = true)
    (hts : Spec.TypeSpec ts ∈ gen.Specs) (hstruct : ts.Typ = Expr.StructType fields) :
    (scanFile markerComment filename file structsToInterfaces).get? ts.Name
        = some { InterfaceName := ts.Name ++ "Interface", SourceFile := filename }
      ∧ (∀ (fn : FuncDecl) (body : List Stmt) (n : Node),
          Decl.FuncDecl fn ∈ file.Decls → fn.Body = some body → n ∈ stmtsNodes body →
          n ∈ file.nodes)
      ∧ (∀ (d : GenDecl) (n : Node),
          Decl.GenDecl d ∈ file.Decls → n ∈ specsNodes d.Specs → n ∈ file.nodes)
      ∧ (∀ (body : List Stmt) (s : Stmt) (n : Node),
          s ∈ body → n ∈ s.nodes → n ∈ stmtsNodes body)
      ∧ (∀ (values : List ValueExpr) (x : ValueExpr) (n : Node),
          x ∈ values → n ∈ x.nodes → n ∈ exprsNodes values)
      ∧ (∀ (specs : List Spec) (s : Spec) (n : Node),
          s ∈ specs → n ∈ s.nodes → n ∈ specsNodes specs)
      ∧ (∀ d : GenDecl, (Stmt.DeclStmt d).nodes = Node.GenDecl d :: specsNodes d.Specs)
      ∧ (∀ l : List Stmt, (Stmt.BlockStmt l).nodes = stmtsNodes l)
      ∧ (∀ x : ValueExpr, (Stmt.ExprStmt x).nodes = x.nodes)
      ∧ (∀ (t : FuncType) (body : List Stmt),
          (ValueExpr.FuncLit t body).nodes = stmtsNodes body)
      ∧ (∀ (f : ValueExpr) (args : List ValueExpr),
          (ValueExpr.CallExpr f args).nodes = f.nodes ++ exprsNodes args)
      ∧ (∀ (names : List String) (values : List ValueExpr),
          (Spec.ValueSpec names values).nodes = exprsNodes values) := by
  refine ⟨?_, fun fn body n h1 h2 h3 => mem_file_nodes_of_body file fn body n h1 h2 h3,
    fun d n h1 h2 => mem_file_nodes_of_values file d n h1 h2,
    fun body s n h1 h2 => mem_stmtsNodes body s n h1 h2,
    fun values x n h1 h2 => mem_exprsNodes values x n h1 h2,
    fun specs s n h1 h2 => mem_specsNodes specs s n h1 h2,
    declStmt_nodes, fun _ => rfl, fun _ => rfl, fun _ _ => rfl, fun _ _ => rfl,
    fun _ _ => rfl⟩
  apply (registers_scanFile markerComment filename file structsToInterfaces ts.Name).1
  exact ⟨gen, hnode, htok, (hasMarker_iff markerComment gen.Doc).mp hdoc, ts, hts, rfl,
    fields, hstruct⟩

/-- C16 (amended) at three places: `Local` declared by a statement of the body of
`func run()`, `Deep` declared in the body of a function literal called inside a block
of `func walk()`, and `Deep` declared in the function literal of a top-level `var`. -/
theorem C16_local_declarations_are_scanned_witness :
    (scanFile defaultMarker "pkg/local.go" localFile []).get? "Local"
        = some { InterfaceName := "Local" ++ "Interface", SourceFile := "pkg/local.go" }
      ∧ (scanFile defaultMarker "pkg/nested.go" nestedFile []).get? "Deep"
        = some { InterfaceName := "Deep" ++ "Interface", SourceFile := "pkg/nested.go" }
      ∧ (scanFile defaultMarker "pkg/literal.go" literalFile []).get? "Deep"
        = some { InterfaceName := "Deep" ++ "Interface", SourceFile := "pkg/literal.go" } :=
  ⟨(C16_local_declarations_are_scanned defaultMarker "pkg/local.go" localFile [] localDecl
      { Doc := none, Name := "Local", Typ := .StructType [] } []
      (by simp [File.nodes, localFile, Decl.nodes, runFunc, stmtsNodes, Stmt.nodes,
        ValueExpr.nodes, specsNodes, localDecl])
      rfl (by decide) (by simp [localDecl]) rfl).1,
   (C16_local_declarations_are_scanned defaultMarker "pkg/nested.go" nestedFile [] deepDecl
      { Doc := none, Name := "Deep", Typ := .StructType [] } []
      (by simp [File.nodes, nestedFile, Decl.nodes, walkFunc, stmtsNodes, Stmt.nodes,
        ValueExpr.nodes, exprsNodes, specsNodes, deepDecl])
      rfl (by decide) (by simp [deepDecl]) rfl).1,
   (C16_local_declarations_are_scanned defaultMarker "pkg/literal.go" literalFile [] deepDecl
      { Doc := none, Name := "Deep", Typ := .StructType [] } []
      (by simp [File.nodes, literalFile, Decl.nodes, stmtsNodes, Stmt.nodes,
        ValueExpr.nodes, exprsNodes, specsNodes, Spec.nodes, deepDecl])
      rfl (by decide) (by simp [deepDecl]) rfl).1⟩

/-! ## Output paths: `filepath.Join` on a file name -/

theorem splitSlash_ne_nil (l : List Char) : splitSlash l ≠ [] := by
  induction l with
  | nil => simp [splitSlash]
  | cons c cs ih =>
    by_cases hc : c = '/'
    · simp [splitSlash, hc]
    · simp only [splitSlash, hc, if_false]
      split <;> simp

theorem splitSlash_of_no_slash (n : List Char) (h : '/' ∉ n) : splitSlash n = [n] := by
  induction n with
  | nil => rfl
  | cons c cs ih =>
    have hc : ¬ c = '/' := fun e => h (by rw [e]; exact List.mem_cons_self _ _)
    have hcs : '/' ∉ cs := fun e => h (List.mem_cons_of_mem _ e)
    simp only [splitSlash, hc, if_false, ih hcs]

theorem splitSlash_append (a n : List Char) (h : '/' ∉ n) :
    splitSlash (a ++ '/' :: n) = splitSlash a ++ [n] := by
  induction a with
  | nil => simp [splitSlash, splitSlash_of_no_slash n h]
  | cons c cs ih =>
    by_cases hc : c = '/'
    · simp [splitSlash, hc, ih]
    · have hstep : ∀ l : List Char, splitSlash (c :: l)
          = (match splitSlash l with
            | [] => [[c]]
            | elem :: rest => (c :: elem) :: rest) := by
        intro l
        simp only [splitSlash, hc, if_false]
      rw [List.cons_append, hstep, hstep, ih]
      cases hs : splitSlash cs with
      | nil => exact absurd hs (splitSlash_ne_nil cs)
      | cons e rest => rfl

theorem joinSlash_append_singleton (l : List (List Char)) (n : List Char) :
    joinSlash (l ++ [n]) = joinBefore l ++ n := by
  induction l with
  | nil => rfl
  | cons e rest ih =>
    cases rest with
    | nil => simp [joinSlash, joinBefore]
    | cons f rest1 =>
      have ih1 : joinSlash (f :: rest1 ++ [n]) = joinSlash (f :: rest1) ++ ['/'] ++ n := by
        simpa [joinBefore] using ih
      show joinSlash (e :: f :: (rest1 ++ [n])) = joinBefore (e :: f :: rest1) ++ n
      simp only [joinSlash, joinBefore]
      have ih2 : joinSlash (f :: (rest1 ++ [n])) = joinSlash (f :: rest1) ++ ['/'] ++ n := ih1
      rw [ih2]
      simp [List.append_assoc]

theorem cleanStep_regular (rooted : Bool) (kept : List (List Char)) (n : List Char)
    (h0 : n ≠ []) (h1 : n ≠ ['.']) (h2 : n ≠ ['.', '.']) :
    cleanStep rooted kept n = n :: kept := by
  simp [cleanStep, h0, h1, h2]

/-- On a regular file name (no separator, not empty, not `.` or `..`) the result of
`filepath.Join(dir, name)` is a text fixed by `dir` followed by the name. -/
theorem filepathJoin_regular (dir : String) :
    ∃ before : List Char, ∀ n : List Char, '/' ∉ n → n ≠ [] → n ≠ ['.'] → n ≠ ['.', '.'] →
      (filepathJoin dir (String.mk n)).data = before ++ n := by
  cases hd : dir.data with
  | nil =>
    have hdir : dir = "" := String.ext hd
    refine ⟨[], ?_⟩
    intro n hs h0 h1 h2
    have hn : ¬ String.mk n = "" := by
      intro e
      have : (String.mk n).data = "".data := by rw [e]
      exact h0 this
    simp only [filepathJoin, hdir, ne_eq, not_true_eq_false, if_false, hn, not_false_eq_true,
      if_true, filepathClean, List.nil_append]
    cases n with
    | nil => exact absurd rfl h0
    | cons c cs =>
      have hc : ¬ c = '/' := fun e => hs (by rw [e]; exact List.mem_cons_self _ _)
      simp only [cleanChars, hc, if_false, splitSlash_of_no_slash (c :: cs) hs,
        List.foldl_cons, List.foldl_nil, cleanStep_regular false [] (c :: cs) h0 h1 h2]
      simp [joinSlash]
  | cons c cs =>
    have hdir : ¬ dir = "" := by
      intro e
      rw [e] at hd
      cases hd
    have hgoal : ∀ n : List Char, (dir ++ "/" ++ String.mk n).data = (c :: cs) ++ '/' :: n := by
      intro n
      simp only [String.data_append, hd]
      show (c :: cs) ++ ['/'] ++ n = (c :: cs) ++ '/' :: n
      simp
    by_cases hc : c = '/'
    · refine ⟨'/' :: joinBefore ((splitSlash (c :: cs)).foldl (cleanStep true) []).reverse, ?_⟩
      intro n hs h0 h1 h2
      simp only [filepathJoin, ne_eq, hdir, not_false_eq_true, if_true, filepathClean]
      rw [hgoal n]
      have hsplit := splitSlash_append (c :: cs) n hs
      have hcl : ∀ l : List Char, cleanChars (c :: l)
          = '/' :: joinSlash ((splitSlash (c :: l)).foldl (cleanStep true) []).reverse := by
        intro l
        simp only [cleanChars, hc, if_true]
      rw [List.cons_append, hcl, ← List.cons_append, hsplit, List.foldl_append, List.foldl_cons,
        List.foldl_nil, cleanStep_regular true _ n h0 h1 h2, List.reverse_cons,
        joinSlash_append_singleton]
      rfl
    · refine ⟨joinBefore ((splitSlash (c :: cs)).foldl (cleanStep false) []).reverse, ?_⟩
      intro n hs h0 h1 h2
      simp only [filepathJoin, ne_eq, hdir, not_false_eq_true, if_true, filepathClean]
      rw [hgoal n]
      have hsplit := splitSlash_append (c :: cs) n hs
      have hcl : ∀ l : List Char, cleanChars (c :: l)
          = if (splitSlash (c :: l)).foldl (cleanStep false) [] = [] then ['.']
            else joinSlash ((splitSlash (c :: l)).foldl (cleanStep false) []).reverse := by
        intro l
        simp only [cleanChars, hc, if_false]
      rw [List.cons_append, hcl, ← List.cons_append, hsplit, List.foldl_append, List.foldl_cons,
        List.foldl_nil, cleanStep_regular false _ n h0 h1 h2]
      simp only [List.cons_ne_nil, if_false, List.reverse_cons, reduceCtorEq]
      rw [joinSlash_append_singleton]

theorem interface_file_name_regular (x : List Char) (hx : '/' ∉ x) :
    '/' ∉ x ++ ".interface.go".data ∧ x ++ ".interface.go".data ≠ []
      ∧ x ++ ".interface.go".data ≠ ['.'] ∧ x ++ ".interface.go".data ≠ ['.', '.'] := by
  have hlen : (x ++ ".interface.go".data).length = x.length + 13 := by
    rw [List.length_append]
    rfl
  refine ⟨?_, ?_, ?_, ?_⟩
  · intro h
    rcases List.mem_append.mp h with h | h
    · exact hx h
    · exact absurd h (by decide)
  · intro e
    rw [e] at hlen
    simp at hlen
  · intro e
    rw [e] at hlen
    simp at hlen
  · intro e
    rw [e] at hlen
    simp at hlen

theorem toLower_eq_slash (c : Char) (h : c.toLower = '/') : c = '/' := by
  by_cases hc : c.toNat ≥ 65 ∧ c.toNat ≤ 90
  · exfalso
    have hl : c.toLower = Char.ofNat (c.toNat + 32) := by
      simp only [Char.toLower, hc, and_self, if_true]
    rw [hl] at h
    obtain ⟨h2, h3⟩ := hc
    have h5 : Char.ofNat (c.toNat + 32) ≠ '/' := by
      generalize c.toNat = k at h2 h3
      interval_cases k <;> decide
    exact h5 h
  · have hl : c.toLower = c := by
      simp only [Char.toLower, hc, if_false]
    rw [hl] at h
    exact h

/-- Lower-casing brings no separator into a name that holds none, when
`unicode.ToLower` maps no code point outside ASCII to the separator. -/
theorem stringsToLower_no_slash (lowerNonASCII : Char → Char) (T : String)
    (hlower : ∀ c : Char, ¬ c.toNat < 128 → lowerNonASCII c ≠ '/') (hT : '/' ∉ T.data) :
    '/' ∉ (stringsToLower lowerNonASCII T).data := by
  intro h
  simp only [stringsToLower, List.mem_map] at h
  obtain ⟨c, hc, e⟩ := h
  unfold toLowerRune at e
  by_cases h128 : c.toNat < 128
  · simp only [h128, if_true] at e
    rw [toLower_eq_slash c e] at hc
    exact hT hc
  · simp only [h128, if_false] at e
    exact hlower c h128 e

/-- The types `Widget` and `widget` of C14 are distinct, both tagged, with source
files in one directory, and get the same output path.  So do `MyInterfaceA` and
`MyInterfaceB`, whose lower-cased forms are distinct and contain `interface`: both
get `pkg/my.interface.go`. -/
theorem C14_counterexample :
    "Widget" ≠ "widget"
      ∧ scanFiles defaultMarker caseFiles []
          = [("Widget", { InterfaceName := "WidgetInterface", SourceFile := "pkg/a.go" }),
             ("widget", { InterfaceName := "widgetInterface", SourceFile := "pkg/b.go" })]
      ∧ goLib.dir "pkg/a.go" = goLib.dir "pkg/b.go"
      ∧ ifacePath goLib { InterfaceName := "WidgetInterface", SourceFile := "pkg/a.go" }
          = ifacePath goLib { InterfaceName := "widgetInterface", SourceFile := "pkg/b.go" }
      ∧ (generate goLib "pkg" (scanFiles defaultMarker caseFiles []) []).map Prod.fst
          = ["pkg/widget.interface.go", "pkg/widget.interface.go"]
      ∧ stringsToLower goLib.lowerNonASCII "MyInterfaceA"
          ≠ stringsToLower goLib.lowerNonASCII "MyInterfaceB"
      ∧ ifacePath goLib { InterfaceName := "MyInterfaceA" ++ "Interface",
                          SourceFile := "pkg/a.go" }
          = ifacePath goLib { InterfaceName := "MyInterfaceB" ++ "Interface",
                              SourceFile := "pkg/b.go" } := by
  refine ⟨by decide, by decide, by decide, by decide, by decide, by decide, by decide⟩

/-- C14 (amended): two tagged type names whose lower-cased forms are distinct and do
not contain `interface`, with source files in the same directory, get distinct output
file names and distinct output paths.  `filepath.Join` is the cleaning join
`filepathJoin`; a type name is a Go identifier, so it holds no path separator, and
`unicode.ToLower` maps no code point outside ASCII to the separator. -/
theorem C14_distinct_paths (L : Lib) (T1 T2 f1 f2 : String)
    (hjoin : L.join = filepathJoin)
    (hlower : ∀ c : Char, ¬ c.toNat < 128 → L.lowerNonASCII c ≠ '/')
    (hT1 : '/' ∉ T1.data) (hT2 : '/' ∉ T2.data)
    (hdir : L.dir f1 = L.dir f2)
    (hlow : stringsToLower L.lowerNonASCII T1 ≠ stringsToLower L.lowerNonASCII T2)
    (h1 : stringsContains (stringsToLower L.lowerNonASCII T1) "interface" = false)
    (h2 : stringsContains (stringsToLower L.lowerNonASCII T2) "interface" = false) :
    ifaceFileName L { InterfaceName := T1 ++ "Interface", SourceFile := f1 }
        ≠ ifaceFileName L { InterfaceName := T2 ++ "Interface", SourceFile := f2 }
      ∧ ifacePath L { InterfaceName := T1 ++ "Interface", SourceFile := f1 }
        ≠ ifacePath L { InterfaceName := T2 ++ "Interface", SourceFile := f2 } := by
  have hname : ifaceFileName L { InterfaceName := T1 ++ "Interface", SourceFile := f1 }
      ≠ ifaceFileName L { InterfaceName := T2 ++ "Interface", SourceFile := f2 } := by
    rw [ifaceFileName_of_not_contains L T1 f1 h1, ifaceFileName_of_not_contains L T2 f2 h2]
    intro e
    exact hlow (string_append_right_cancel _ _ _ e)
  refine ⟨hname, ?_⟩
  intro e
  unfold ifacePath at e
  simp only at e
  rw [hdir, hjoin, ifaceFileName_of_not_contains L T1 f1 h1,
    ifaceFileName_of_not_contains L T2 f2 h2] at e
  obtain ⟨before, hb⟩ := filepathJoin_regular (L.dir f2)
  have hr1 := interface_file_name_regular _
    (stringsToLower_no_slash L.lowerNonASCII T1 hlower hT1)
  have hr2 := interface_file_name_regular _
    (stringsToLower_no_slash L.lowerNonASCII T2 hlower hT2)
  have e1 := hb _ hr1.1 hr1.2.1 hr1.2.2.1 hr1.2.2.2
  have e2 := hb _ hr2.1 hr2.2.1 hr2.2.2.1 hr2.2.2.2
  have e3 : (filepathJoin (L.dir f2)
      (stringsToLower L.lowerNonASCII T1 ++ ".interface.go")).data
      = (filepathJoin (L.dir f2)
      (stringsToLower L.lowerNonASCII T2 ++ ".interface.go")).data := by rw [e]
  have e4 : before ++ ((stringsToLower L.lowerNonASCII T1).data ++ ".interface.go".data)
      = before ++ ((stringsToLower L.lowerNonASCII T2).data ++ ".interface.go".data) :=
    e1.symm.trans (e3.trans e2)
  exact hlow (String.ext (List.append_cancel_right (List.append_cancel_left e4)))

/-- C14 (amended) on `Widget` and `Gadget` in the directory `pkg`. -/
theorem C14_distinct_paths_witness :
    ifacePath goLib { InterfaceName := "Widget" ++ "Interface", SourceFile := "pkg/a.go" }
      ≠ ifacePath goLib { InterfaceName := "Gadget" ++ "Interface", SourceFile := "pkg/b.go" } :=
  (C14_distinct_paths goLib "Widget" "Gadget" "pkg/a.go" "pkg/b.go" rfl
    (fun c hc e => hc (by rw [show c = '/' from e]; decide)) (by decide) (by decide) (by decide) (by decide) (by decide)
    (by decide)).2

/-! ## Packages of one run -/

theorem writeLoop_written (S : Sys) (L : Lib) (pkgName : String) (methods : MethodMap)
    (entries : List (String × StructInfo)) (written : List (String × String)) :
    writeLoop S L pkgName methods entries written
      = { written := written ++ (writeLoop S L pkgName methods entries []).written,
          outcome := (writeLoop S L pkgName methods entries []).outcome } := by
  induction entries generalizing written with
  | nil => simp [writeLoop]
  | cons entry rest ih =>
    simp only [writeLoop]
    cases himp : S.importsProcess (generateOne L pkgName methods entry).1
        (generateOne L pkgName methods entry).2 with
    | error err => simp
    | ok formatted =>
      simp only
      cases hwrite : S.writeFile (generateOne L pkgName methods entry).1 formatted with
      | some err =>
        simp only
        exact ih written
      | none =>
        simp only [List.nil_append]
        rw [ih (written ++ [((generateOne L pkgName methods entry).1, formatted)]),
          ih [((generateOne L pkgName methods entry).1, formatted)]]
        simp only [List.append_assoc]

theorem runPackage_written (S : Sys) (L : Lib) (markerComment : String) (pkg : Package)
    (written : List (String × String)) :
    runPackage S L markerComment pkg written
      = { written := written ++ (runPackage S L markerComment pkg []).written,
          outcome := (runPackage S L markerComment pkg []).outcome } := by
  unfold runPackage
  simp only
  cases collectFiles
      (scanFiles markerComment (sortByRank (fun p => S.fileRank1 p.1) pkg.Files) []) []
      ((sortByRank (fun p => S.fileRank2 p.1) pkg.Files).map Prod.snd) with
  | none => simp
  | some methods =>
    simp only
    exact writeLoop_written S L pkg.Name methods _ written

theorem runPackages_cons (S : Sys) (L : Lib) (markerComment : String) (pkg : Package)
    (rest : List Package) (written : List (String × String)) :
    runPackages S L markerComment (pkg :: rest) written
      = if (runPackage S L markerComment pkg written).outcome = Outcome.finished then
          runPackages S L markerComment rest (runPackage S L markerComment pkg written).written
        else runPackage S L markerComment pkg written := by
  cases hr : runPackage S L markerComment pkg written with
  | mk w o =>
    cases o <;> simp [runPackages, hr]

theorem runPackages_written (S : Sys) (L : Lib) (markerComment : String)
    (pkgs : List Package) (written : List (String × String)) :
    runPackages S L markerComment pkgs written
      = { written := written ++ (runPackages S L markerComment pkgs []).written,
          outcome := (runPackages S L markerComment pkgs []).outcome } := by
  induction pkgs generalizing written with
  | nil => simp [runPackages]
  | cons pkg rest ih =>
    rw [runPackages_cons, runPackages_cons S L markerComment pkg rest [],
      runPackage_written S L markerComment pkg written]
    simp only
    by_cases ho : (runPackage S L markerComment pkg []).outcome = Outcome.finished
    · simp only [ho, if_true]
      rw [ih (written ++ (runPackage S L markerComment pkg []).written),
        ih (runPackage S L markerComment pkg []).written]
      simp only [List.append_assoc]
    · simp only [ho, if_false]

theorem runPackages_append (S : Sys) (L : Lib) (markerComment : String)
    (before after : List Package) (written : List (String × String)) :
    runPackages S L markerComment (before ++ after) written
      = if (runPackages S L markerComment before written).outcome = Outcome.finished then
          runPackages S L markerComment after
            (runPackages S L markerComment before written).written
        else runPackages S L markerComment before written := by
  induction before generalizing written with
  | nil => simp [runPackages]
  | cons pkg rest ih =>
    rw [List.cons_append, runPackages_cons, runPackages_cons S L markerComment pkg rest]
    by_cases ho : (runPackage S L markerComment pkg written).outcome = Outcome.finished
    · simp only [ho, if_true]
      exact ih _
    · simp only [ho, if_false]

/-- A run over packages among which `A` is processed without panic: the packages
before `A` and the packages after `A` write what they write in a run without `A`. -/
theorem runPackages_around (S : Sys) (L : Lib) (markerComment : String)
    (before after : List Package) (A : Package)
    (hA : (runPackage S L markerComment A []).outcome = Outcome.finished) :
    runPackages S L markerComment (before ++ A :: after) []
      = if (runPackages S L markerComment before []).outcome = Outcome.finished then
          { written := (runPackages S L markerComment before []).written
              ++ ((runPackage S L markerComment A []).written
                ++ (runPackages S L markerComment after []).written),
            outcome := (runPackages S L markerComment after []).outcome }
        else runPackages S L markerComment before [] := by
  rw [runPackages_append]
  by_cases ho : (runPackages S L markerComment before []).outcome = Outcome.finished
  · simp only [ho, if_true]
    rw [runPackages_cons, runPackage_written]
    simp only [hA, if_true]
    rw [runPackages_written]
    simp only [List.append_assoc]
  · simp only [ho, if_false]

theorem GoMap.get?_eq_none_of_not_mem_keys {V : Type} (m : GoMap V) (k : String)
    (h : k ∉ m.keys) : m.get? k = none := by
  cases hget : m.get? k with
  | none => rfl
  | some v => exact absurd ((GoMap.mem_keys_iff m k).mpr ⟨v, hget⟩) h

/-- The claim C12 fails for a change after which the processing of `A` panics.  The
package `other` declares `Size` on an untagged `Widget`; processed before the package
`pkg`, which tags `Widget`, it lets the run write the interface of `pkg`.  With one
more declaration in `other`, `func () f() {}`, the run panics in the second pass over
`other` and nothing is generated for `pkg`. -/
theorem C12_counterexample :
    otherPackage.Files
        = [("pkg/other.go", { Name := "other", Decls := [Decl.FuncDecl widgetSize] })]
      ∧ panicPackage.Files
        = [("pkg/other.go",
            { Name := "other",
              Decls := [Decl.FuncDecl widgetSize, Decl.FuncDecl emptyRecvDecl] })]
      ∧ emptyRecvDecl.Recv = some []
      ∧ runPackages okSys goLib defaultMarker [otherPackage, widgetPackage] []
        = { written := [("pkg/widget.interface.go",
              "package pkg\n\ntype WidgetInterface interface \x7b\n\tName() string\n\x7d\n")],
            outcome := Outcome.finished }
      ∧ runPackages okSys goLib defaultMarker [panicPackage, widgetPackage] []
        = { written := [], outcome := Outcome.panicked "index out of range" } := by
  refine ⟨rfl, rfl, rfl, by decide, by decide⟩

/-- C12 (amended): packages are processed independently, and a change to the
declarations of `A` leaves what is generated for the packages processed after `A` as
it was when the processing of `A` ends without panic before and after the change.
`A` and `A2` are the package before and after the change, `before` and `after` the
packages processed before and after it.  What the packages before `A` write opens
both runs, and when one of them panics the two runs are the same run.  When none does
and the processing of `A` and of `A2` ends without panic, the two runs end the same
way and write, around what `A` and `A2` write, the same files: those the packages
before and the packages after write in a run of their own.  What the run does for a
package `B` is what it does for `B` alone, after what was written before.  The
methods collected for a tagged type `T` of `B` are the declarations of the files of
`B` whose receiver resolves to `T`, and a package that does not tag `T` collects no
method for `T`. -/
theorem C12_packages_independent (S : Sys) (L : Lib) (markerComment : String)
    (A A2 B : Package) (before after : List Package) (written : List (String × String)) :
    ((runPackages S L markerComment before []).outcome ≠ Outcome.finished →
        runPackages S L markerComment (before ++ A :: after) []
            = runPackages S L markerComment before []
          ∧ runPackages S L markerComment (before ++ A2 :: after) []
            = runPackages S L markerComment before [])
      ∧ ((runPackages S L markerComment before []).outcome = Outcome.finished →
          (runPackages S L markerComment (before ++ A :: after) []).written
            = (runPackages S L markerComment before []).written
              ++ (runPackages S L markerComment (A :: after) []).written
          ∧ (runPackages S L markerComment (before ++ A2 :: after) []).written
            = (runPackages S L markerComment before []).written
              ++ (runPackages S L markerComment (A2 :: after) []).written)
      ∧ ((runPackage S L markerComment A []).outcome = Outcome.finished →
          (runPackage S L markerComment A2 []).outcome = Outcome.finished →
          (runPackages S L markerComment before []).outcome = Outcome.finished →
          runPackages S L markerComment (before ++ A :: after) []
            = { written := (runPackages S L markerComment before []).written
                  ++ ((runPackage S L markerComment A []).written
                    ++ (runPackages S L markerComment after []).written),
                outcome := (runPackages S L markerComment after []).outcome }
          ∧ runPackages S L markerComment (before ++ A2 :: after) []
            = { written := (runPackages S L markerComment before []).written
                  ++ ((runPackage S L markerComment A2 []).written
                    ++ (runPackages S L markerComment after []).written),
                outcome := (runPackages S L markerComment after []).outcome })
      ∧ ((runPackage S L markerComment A []).outcome = Outcome.finished →
          (runPackage S L markerComment A2 []).outcome = Outcome.finished →
          (runPackages S L markerComment (before ++ A :: after) []).outcome
            = (runPackages S L markerComment (before ++ A2 :: after) []).outcome)
      ∧ runPackage S L markerComment B written
          = { written := written ++ (runPackage S L markerComment B []).written,
              outcome := (runPackage S L markerComment B []).outcome }
      ∧ (∀ (T : String) (info : StructInfo) (methodsB : MethodMap), T ≠ "" →
          (scanFiles markerComment (sortByRank (fun p => S.fileRank1 p.1) B.Files) []).get? T
            = some info →
          collectFiles
              (scanFiles markerComment (sortByRank (fun p => S.fileRank1 p.1) B.Files) []) []
              ((sortByRank (fun p => S.fileRank2 p.1) B.Files).map Prod.snd)
            = some methodsB →
          methodsB.getD T []
            = (((sortByRank (fun p => S.fileRank2 p.1) B.Files).map Prod.snd).flatMap
                File.funcDecls).filter (resolvesTo T))
      ∧ (∀ (T : String) (methodsA : MethodMap),
          (scanFiles markerComment (sortByRank (fun p => S.fileRank1 p.1) A.Files) []).get? T
            = none →
          collectFiles
              (scanFiles markerComment (sortByRank (fun p => S.fileRank1 p.1) A.Files) []) []
              ((sortByRank (fun p => S.fileRank2 p.1) A.Files).map Prod.snd)
            = some methodsA →
          methodsA.get? T = none) := by
  have happ : ∀ X : Package,
      (runPackages S L markerComment before []).outcome = Outcome.finished →
      (runPackages S L markerComment (before ++ X :: after) []).written
        = (runPackages S L markerComment before []).written
          ++ (runPackages S L markerComment (X :: after) []).written := by
    intro X ho
    rw [runPackages_append]
    simp only [ho, if_true]
    rw [runPackages_written]
  have hstop : ∀ X : Package,
      (runPackages S L markerComment before []).outcome ≠ Outcome.finished →
      runPackages S L markerComment (before ++ X :: after) []
        = runPackages S L markerComment before [] := by
    intro X ho
    rw [runPackages_append]
    simp only [ho, if_false]
  refine ⟨fun ho => ⟨hstop A ho, hstop A2 ho⟩, fun ho => ⟨happ A ho, happ A2 ho⟩, ?_, ?_,
    runPackage_written S L markerComment B written, ?_, ?_⟩
  · intro hA hA2 ho
    rw [runPackages_around S L markerComment before after A hA,
      runPackages_around S L markerComment before after A2 hA2]
    simp only [ho, if_true, and_self]
  · intro hA hA2
    rw [runPackages_around S L markerComment before after A hA,
      runPackages_around S L markerComment before after A2 hA2]
    by_cases ho : (runPackages S L markerComment before []).outcome = Outcome.finished
    · simp only [ho, if_true]
    · simp only [ho, if_false]
  · intro T info methodsB hT htag hcollect
    have htag1 : (scanFiles markerComment
        (sortByRank (fun p => S.fileRank1 p.1) B.Files) []).get? T ≠ none := by
      rw [htag]
      exact Option.some_ne_none info
    rw [collectFiles_getD _ _ [] methodsB T hT htag1 hcollect]
    simp [GoMap.getD, GoMap.get?]
  · intro T methodsA hnot hcollect
    apply GoMap.get?_eq_none_of_not_mem_keys
    intro hmem
    have hkeys := collectFiles_keys _ _ [] methodsA
      (by intro k hk; simp [GoMap.keys] at hk) hcollect T hmem
    rw [GoMap.mem_keys_iff] at hkeys
    obtain ⟨v, hv⟩ := hkeys
    rw [hnot] at hv
    cases hv

/-- C12 (amended) on the package `other` before and after a tagged `Gadget` is added
to it, processed before the package `pkg`: both runs finish, and both write the same
interface for `Widget` of `pkg`, after what `other` writes. -/
theorem C12_packages_independent_witness :
    runPackages okSys goLib defaultMarker ([] ++ otherPackage :: [widgetPackage]) []
        = { written := [] ++ ([] ++ [("pkg/widget.interface.go",
              "package pkg\n\ntype WidgetInterface interface \x7b\n\tName() string\n\x7d\n")]),
            outcome := Outcome.finished }
      ∧ runPackages okSys goLib defaultMarker ([] ++ gadgetPackage :: [widgetPackage]) []
        = { written := [] ++ ([("pkg/gadget.interface.go",
              "package other\n\ntype GadgetInterface interface \x7b\n\x7d\n")]
              ++ [("pkg/widget.interface.go",
              "package pkg\n\ntype WidgetInterface interface \x7b\n\tName() string\n\x7d\n")]),
            outcome := Outcome.finished } :=
  (C12_packages_independent okSys goLib defaultMarker otherPackage gadgetPackage widgetPackage
    [] [widgetPackage] []).2.2.1 (by decide) (by decide) (by decide)

/-! ## The order of a `range` and the files that carry nothing -/

theorem insertByRank_of_le {α : Type} (rank : α → Nat) (a : α) (l : List α)
    (h : ∀ x ∈ l, rank a ≤ rank x) : insertByRank rank a l = a :: l := by
  cases l with
  | nil => rfl
  | cons b rest => simp only [insertByRank, h b (List.mem_cons_self _ _), if_true]

theorem mem_insertByRank {α : Type} (rank : α → Nat) (a x : α) (l : List α) :
    x ∈ insertByRank rank a l ↔ x = a ∨ x ∈ l := by
  induction l with
  | nil => simp [insertByRank]
  | cons b rest ih =>
    by_cases hab : rank a ≤ rank b
    · simp only [insertByRank, hab, if_true, List.mem_cons]
    · simp only [insertByRank, hab, if_false, List.mem_cons, ih]
      constructor
      · rintro (h | h | h)
        · exact Or.inr (Or.inl h)
        · exact Or.inl h
        · exact Or.inr (Or.inr h)
      · rintro (h | h | h)
        · exact Or.inr (Or.inl h)
        · exact Or.inl h
        · exact Or.inr (Or.inr h)

theorem pairwise_insertByRank {α : Type} (rank : α → Nat) (a : α) (l : List α)
    (h : l.Pairwise (fun x y => rank x ≤ rank y)) :
    (insertByRank rank a l).Pairwise (fun x y => rank x ≤ rank y) := by
  induction l with
  | nil => simp [insertByRank]
  | cons b rest ih =>
    rw [List.pairwise_cons] at h
    by_cases hab : rank a ≤ rank b
    · simp only [insertByRank, hab, if_true]
      refine List.pairwise_cons.mpr ⟨?_, List.pairwise_cons.mpr h⟩
      intro x hx
      rcases List.mem_cons.mp hx with hx | hx
      · rw [hx]
        exact hab
      · exact Nat.le_trans hab (h.1 x hx)
    · simp only [insertByRank, hab, if_false]
      refine List.pairwise_cons.mpr ⟨?_, ih h.2⟩
      intro x hx
      rcases (mem_insertByRank rank a x rest).mp hx with hx | hx
      · rw [hx]
        omega
      · exact h.1 x hx

theorem pairwise_sortByRank {α : Type} (rank : α → Nat) (l : List α) :
    (sortByRank rank l).Pairwise (fun x y => rank x ≤ rank y) := by
  induction l with
  | nil => exact List.Pairwise.nil
  | cons a rest ih => exact pairwise_insertByRank rank a _ ih

theorem filter_insertByRank {α : Type} (rank : α → Nat) (keep : α → Bool) (a : α)
    (l : List α) (h : l.Pairwise (fun x y => rank x ≤ rank y)) :
    (insertByRank rank a l).filter keep
      = if keep a = true then insertByRank rank a (l.filter keep) else l.filter keep := by
  induction l with
  | nil =>
    cases ha : keep a <;> simp [insertByRank, ha]
  | cons b rest ih =>
    rw [List.pairwise_cons] at h
    by_cases hab : rank a ≤ rank b
    · simp only [insertByRank, hab, if_true]
      cases ha : keep a
      · simp only [Bool.false_eq_true, if_false]
        rw [List.filter_cons]
        simp only [ha, Bool.false_eq_true, if_false]
      · simp only [if_true]
        rw [insertByRank_of_le rank a ((b :: rest).filter keep)]
        · rw [List.filter_cons]
          simp only [ha, if_true]
        · intro x hx
          rcases List.mem_cons.mp (List.mem_filter.mp hx).1 with hx1 | hx1
          · rw [hx1]
            exact hab
          · exact Nat.le_trans hab (h.1 x hx1)
    · simp only [insertByRank, hab, if_false]
      rw [List.filter_cons, ih h.2]
      cases hb : keep b <;> cases ha : keep a <;>
        simp only [Bool.false_eq_true, if_false, if_true, List.filter_cons, hb, insertByRank,
          hab]

/-- Leaving entries out of a map does not change the order in which a `range` yields
the others. -/
theorem filter_sortByRank {α : Type} (rank : α → Nat) (keep : α → Bool) (l : List α) :
    (sortByRank rank l).filter keep = sortByRank rank (l.filter keep) := by
  induction l with
  | nil => rfl
  | cons a rest ih =>
    show (insertByRank rank a (sortByRank rank rest)).filter keep = _
    rw [filter_insertByRank rank keep a _ (pairwise_sortByRank rank rest), ih]
    cases ha : keep a
    · simp only [Bool.false_eq_true, if_false, List.filter_cons, ha]
    · simp only [if_true, List.filter_cons, ha]
      rfl

theorem scanSpec_not_struct (markerComment filename : String) (gen : GenDecl)
    (m : TaggedMap) (spec : Spec) (h : spec.structName? = none) :
    scanSpec markerComment filename gen m spec = m := by
  cases spec with
  | TypeSpec ts =>
    cases hty : ts.Typ with
    | StructType fields => simp [Spec.structName?, hty] at h
    | _ => simp only [scanSpec, hty]
  | _ => rfl

theorem scanNode_of_not_carries (markerComment filename : String) (m : TaggedMap) (n : Node)
    (h : (match n with
      | .GenDecl gen =>
        decide (gen.Tok = Token.TYPE) && hasMarker markerComment gen.Doc
          && gen.Specs.any (fun s => s.structName?.isSome)
      | .FuncDecl fn => fn.Recv.isSome) = false) :
    scanNode markerComment filename m n = m := by
  cases n with
  | FuncDecl fn => rfl
  | GenDecl gen =>
    simp only [Bool.and_eq_false_iff, decide_eq_false_iff_not] at h
    rcases h with (htok | hdoc) | hspecs
    · simp only [scanNode, ne_eq, htok, not_false_eq_true, if_true]
    · exact scanNode_no_marker markerComment filename gen m hdoc
    · unfold scanNode
      simp only
      split
      · rfl
      · apply foldl_fixed
        intro s hs
        apply scanSpec_not_struct
        cases hname : s.structName? with
        | none => rfl
        | some T =>
          have : gen.Specs.any (fun s => s.structName?.isSome) = true :=
            List.any_eq_true.mpr ⟨s, hs, by simp [hname]⟩
          rw [hspecs] at this
          cases this

theorem scanFile_of_not_carries (markerComment filename : String) (file : File)
    (m : TaggedMap) (h : File.carries markerComment file = false) :
    scanFile markerComment filename file m = m := by
  unfold scanFile
  apply foldl_fixed
  intro n hn
  apply scanNode_of_not_carries
  unfold File.carries at h
  rw [List.any_eq_false] at h
  simpa using h n hn

theorem collectNodes_of_no_receiver (structsToInterfaces : TaggedMap) (methods : MethodMap)
    (nodes : List Node)
    (h : ∀ n ∈ nodes, ∀ fn, n = Node.FuncDecl fn → fn.Recv = none) :
    collectNodes structsToInterfaces methods nodes = some methods := by
  induction nodes with
  | nil => rfl
  | cons n ns ih =>
    have hstep : collectNode structsToInterfaces methods n = some methods := by
      cases n with
      | GenDecl gen => rfl
      | FuncDecl fn =>
        simp only [collectNode, h (Node.FuncDecl fn) (List.mem_cons_self _ _) fn rfl]
    simp only [collectNodes, hstep]
    exact ih (fun n1 h1 => h n1 (List.mem_cons_of_mem _ h1))

theorem collectFile_of_not_carries (markerComment : String) (structsToInterfaces : TaggedMap)
    (methods : MethodMap) (file : File) (h : File.carries markerComment file = false) :
    collectFile structsToInterfaces methods file = some methods := by
  unfold collectFile
  apply collectNodes_of_no_receiver
  intro n hn fn hfn
  unfold File.carries at h
  rw [List.any_eq_false] at h
  have := h n hn
  subst hfn
  cases hr : fn.Recv with
  | none => rfl
  | some l => simp [hr] at this

theorem scanFiles_filter_carries (markerComment : String) (files : List (String × File))
    (m : TaggedMap) :
    scanFiles markerComment (files.filter (fun p => File.carries markerComment p.2)) m
      = scanFiles markerComment files m := by
  induction files generalizing m with
  | nil => rfl
  | cons p rest ih =>
    by_cases hc : File.carries markerComment p.2 = true
    · simp only [List.filter_cons, hc, if_true]
      rw [scanFiles_cons, scanFiles_cons, ih]
    · simp only [List.filter_cons, hc, Bool.false_eq_true, if_false]
      rw [scanFiles_cons, ih,
        scanFile_of_not_carries markerComment p.1 p.2 m (by simpa using hc)]

theorem collectFiles_filter_carries (markerComment : String) (structsToInterfaces : TaggedMap)
    (files : List (String × File)) (methods : MethodMap) :
    collectFiles structsToInterfaces methods
        ((files.filter (fun p => File.carries markerComment p.2)).map Prod.snd)
      = collectFiles structsToInterfaces methods (files.map Prod.snd) := by
  induction files generalizing methods with
  | nil => rfl
  | cons p rest ih =>
    by_cases hc : File.carries markerComment p.2 = true
    · simp only [List.filter_cons, hc, if_true]
      simp only [List.map_cons, collectFiles]
      cases collectFile structsToInterfaces methods p.2 with
      | none => rfl
      | some m1 => exact ih m1
    · simp only [List.filter_cons, hc, Bool.false_eq_true, if_false]
      simp only [List.map_cons, collectFiles,
        collectFile_of_not_carries markerComment structsToInterfaces methods p.2
          (by simpa using hc)]
      exact ih methods

/-- A package is processed as the package of its files that carry a tagged type or a
method. -/
theorem runPackage_carrierFiles (S : Sys) (L : Lib) (markerComment : String) (P : Package)
    (written : List (String × String)) :
    runPackage S L markerComment { Name := P.Name, Files := carrierFiles markerComment P }
        written
      = runPackage S L markerComment P written := by
  have hscan : scanFiles markerComment
      (sortByRank (fun p => S.fileRank1 p.1) (carrierFiles markerComment P)) []
      = scanFiles markerComment (sortByRank (fun p => S.fileRank1 p.1) P.Files) [] := by
    unfold carrierFiles
    rw [← filter_sortByRank, scanFiles_filter_carries]
  have hcollect : ∀ t : TaggedMap, collectFiles t []
      ((sortByRank (fun p => S.fileRank2 p.1) (carrierFiles markerComment P)).map Prod.snd)
      = collectFiles t [] ((sortByRank (fun p => S.fileRank2 p.1) P.Files).map Prod.snd) := by
    intro t
    unfold carrierFiles
    rw [← filter_sortByRank, collectFiles_filter_carries]
  unfold runPackage
  simp only [hscan, hcollect]

theorem runPackage_of_no_carrier (S : Sys) (L : Lib) (markerComment : String) (P : Package)
    (written : List (String × String)) (h : carrierFiles markerComment P = []) :
    runPackage S L markerComment P written
      = { written := written, outcome := Outcome.finished } := by
  rw [← runPackage_carrierFiles, h]
  rfl

theorem skeleton_cons (markerComment : String) (P : Package) (rest : List Package) :
    skeleton markerComment (P :: rest)
      = if (carrierFiles markerComment P).isEmpty = true then skeleton markerComment rest
        else { Name := P.Name, Files := carrierFiles markerComment P }
          :: skeleton markerComment rest := by
  unfold skeleton
  cases hc : (carrierFiles markerComment P).isEmpty <;> simp [List.filterMap_cons, hc]

/-- A run over packages is the run over their files that carry a tagged type or a
method. -/
theorem runPackages_skeleton (S : Sys) (L : Lib) (markerComment : String)
    (pkgs : List Package) (written : List (String × String)) :
    runPackages S L markerComment (skeleton markerComment pkgs) written
      = runPackages S L markerComment pkgs written := by
  induction pkgs generalizing written with
  | nil => rfl
  | cons P rest ih =>
    rw [skeleton_cons, runPackages_cons S L markerComment P rest]
    cases hc : (carrierFiles markerComment P).isEmpty
    · simp only [Bool.false_eq_true, if_false]
      rw [runPackages_cons, runPackage_carrierFiles]
      by_cases ho : (runPackage S L markerComment P written).outcome = Outcome.finished
      · simp only [ho, if_true]
        exact ih _
      · simp only [ho, if_false]
    · simp only [if_true]
      rw [runPackage_of_no_carrier S L markerComment P written (List.isEmpty_iff.mp hc)]
      simp only [if_true]
      exact ih written

/-! ## The directory a run leaves -/

theorem skeleton_map_congr (markerComment : String) (change : Package → Package)
    (pkgs : List Package)
    (h : ∀ P ∈ pkgs, (change P).Name = P.Name
      ∧ carrierFiles markerComment (change P) = carrierFiles markerComment P) :
    skeleton markerComment (pkgs.map change) = skeleton markerComment pkgs := by
  induction pkgs with
  | nil => rfl
  | cons P rest ih =>
    rw [List.map_cons, skeleton_cons, skeleton_cons,
      (h P (List.mem_cons_self _ _)).1, (h P (List.mem_cons_self _ _)).2,
      ih (fun Q hQ => h Q (List.mem_cons_of_mem _ hQ))]

theorem skeleton_append_of_no_carrier (markerComment : String) (pkgs : List Package)
    (Q : Package) (h : carrierFiles markerComment Q = []) :
    skeleton markerComment (pkgs ++ [Q]) = skeleton markerComment pkgs := by
  induction pkgs with
  | nil =>
    rw [List.nil_append, skeleton_cons, h]
    rfl
  | cons P rest ih => rw [List.cons_append, skeleton_cons, skeleton_cons, ih]

theorem skeleton_filter_nonempty (markerComment : String) (pkgs : List Package) :
    skeleton markerComment (pkgs.filter (fun P => !P.Files.isEmpty))
      = skeleton markerComment pkgs := by
  induction pkgs with
  | nil => rfl
  | cons P rest ih =>
    cases hP : P.Files with
    | nil =>
      have hc : carrierFiles markerComment P = [] := by
        unfold carrierFiles
        rw [hP]
        rfl
      rw [List.filter_cons]
      simp only [hP, List.isEmpty_nil, Bool.not_true, Bool.false_eq_true, if_false]
      rw [ih, skeleton_cons, hc]
      rfl
    | cons p ps =>
      rw [List.filter_cons]
      simp only [hP, List.isEmpty_cons, Bool.not_false, if_true]
      rw [skeleton_cons, skeleton_cons, ih]

/-- Writing a file that carries nothing, at a path where no file carries anything,
leaves the files that carry a tagged type or a method as they were. -/
theorem skeleton_writeInto (markerComment : String) (parseWritten : String → String → File)
    (pkgs : List Package) (w : String × String)
    (hgen : File.carries markerComment (parseWritten w.1 w.2) = false)
    (hpath : ∀ P ∈ pkgs, ∀ p ∈ P.Files, p.1 = w.1 → File.carries markerComment p.2 = false) :
    skeleton markerComment (writeInto parseWritten pkgs w) = skeleton markerComment pkgs := by
  have hremoved : skeleton markerComment (pkgs.map (fun P =>
      ({ Name := P.Name, Files := P.Files.filter (fun p => decide (p.1 ≠ w.1)) } : Package)))
      = skeleton markerComment pkgs := by
    apply skeleton_map_congr
    intro P hP
    refine ⟨rfl, ?_⟩
    unfold carrierFiles
    simp only [List.filter_filter]
    apply List.filter_congr
    intro p hp
    cases hc : File.carries markerComment p.2
    · rfl
    · have hne : ¬ p.1 = w.1 := by
        intro e
        rw [hpath P hP p hp e] at hc
        cases hc
      simp [hne]
  unfold writeInto
  simp only
  rw [skeleton_filter_nonempty]
  split
  · rw [skeleton_map_congr, hremoved]
    intro P _
    by_cases hn : P.Name = (parseWritten w.1 w.2).Name
    · simp only [hn, if_true]
      refine ⟨trivial, ?_⟩
      unfold carrierFiles
      simp only [List.filter_append, List.filter_cons, hgen, Bool.false_eq_true, if_false,
        List.filter_nil, List.append_nil]
    · simp only [hn, if_false, and_self]
  · rw [skeleton_append_of_no_carrier, hremoved]
    unfold carrierFiles
    simp only [List.filter_cons, hgen, Bool.false_eq_true, if_false, List.filter_nil]

/-- A file of the directory after a write is the file written or a file that was
there. -/
theorem mem_writeInto (parseWritten : String → String → File) (pkgs : List Package)
    (w : String × String) (Q : Package) (p : String × File)
    (hQ : Q ∈ writeInto parseWritten pkgs w) (hp : p ∈ Q.Files) :
    p = (w.1, parseWritten w.1 w.2) ∨ ∃ P ∈ pkgs, p ∈ P.Files := by
  have hremoved : ∀ R ∈ pkgs.map (fun P =>
      ({ Name := P.Name, Files := P.Files.filter (fun p => decide (p.1 ≠ w.1)) } : Package)),
      ∀ q ∈ R.Files, ∃ P ∈ pkgs, q ∈ P.Files := by
    intro R hR q hq
    obtain ⟨P, hP, e⟩ := List.mem_map.mp hR
    subst e
    exact ⟨P, hP, (List.mem_filter.mp hq).1⟩
  unfold writeInto at hQ
  simp only at hQ
  have hQ1 := (List.mem_filter.mp hQ).1
  split at hQ1
  · obtain ⟨R, hR, e⟩ := List.mem_map.mp hQ1
    by_cases hn : R.Name = (parseWritten w.1 w.2).Name
    · simp only [hn, if_true] at e
      subst e
      rcases List.mem_append.mp hp with h1 | h1
      · exact Or.inr (hremoved R hR p h1)
      · exact Or.inl (List.mem_singleton.mp h1)
    · simp only [hn, if_false] at e
      subst e
      exact Or.inr (hremoved R hR p hp)
  · rcases List.mem_append.mp hQ1 with h1 | h1
    · exact Or.inr (hremoved Q h1 p hp)
    · rw [List.mem_singleton.mp h1] at hp
      exact Or.inl (List.mem_singleton.mp hp)

theorem skeleton_afterRun (markerComment : String) (parseWritten : String → String → File)
    (written : List (String × String)) (pkgs : List Package)
    (hgen : ∀ w ∈ written, File.carries markerComment (parseWritten w.1 w.2) = false)
    (hpath : ∀ w ∈ written, ∀ P ∈ pkgs, ∀ p ∈ P.Files, p.1 = w.1 →
      File.carries markerComment p.2 = false) :
    skeleton markerComment (afterRun parseWritten pkgs written)
      = skeleton markerComment pkgs := by
  unfold afterRun
  induction written generalizing pkgs with
  | nil => rfl
  | cons w ws ih =>
    simp only [List.foldl_cons]
    rw [ih (writeInto parseWritten pkgs w)
      (fun w1 h1 => hgen w1 (List.mem_cons_of_mem _ h1))]
    · exact skeleton_writeInto markerComment parseWritten pkgs w
        (hgen w (List.mem_cons_self _ _)) (hpath w (List.mem_cons_self _ _))
    · intro w1 h1 Q hQ p hp hk
      rcases mem_writeInto parseWritten pkgs w Q p hQ hp with e | ⟨P, hP, hpP⟩
      · rw [e]
        exact hgen w (List.mem_cons_self _ _)
      · exact hpath w1 (List.mem_cons_of_mem _ h1) P hP p hpP hk

/-- The claim C11 fails when the order of the files is fixed and the order of the loop
over the tagged types is not.  The package `pkg` tags `Widget` and `widget`, whose
interfaces go to the one path `pkg/widget.interface.go`.  The two runs take the files
in the same order; the first takes `Widget` before `widget`, the second `widget`
before `Widget`.  The file written parses to a file without tagged type and method,
and no input file has its path.  The first run leaves the interface of `widget` at the
path, the second run the interface of `Widget`. -/
theorem C11_counterexample :
    upperFirstSys.fileRank1 = lowerFirstSys.fileRank1
      ∧ upperFirstSys.fileRank2 = lowerFirstSys.fileRank2
      ∧ runPackages upperFirstSys goLib defaultMarker [casePackage] []
        = { written := [("pkg/widget.interface.go",
              "package pkg\n\ntype WidgetInterface interface \x7b\n\x7d\n"),
              ("pkg/widget.interface.go",
              "package pkg\n\ntype widgetInterface interface \x7b\n\x7d\n")],
            outcome := Outcome.finished }
      ∧ (∀ w ∈ (runPackages upperFirstSys goLib defaultMarker [casePackage] []).written,
          File.carries defaultMarker (parseSample w.1 w.2) = false
            ∧ ∀ p ∈ casePackage.Files, p.1 ≠ w.1)
      ∧ afterRun parseSample [casePackage]
          (runPackages upperFirstSys goLib defaultMarker [casePackage] []).written
        = [{ Name := "pkg",
             Files := caseFiles ++ [("pkg/widget.interface.go", lowerWidgetInterfaceEmpty)] }]
      ∧ runPackages lowerFirstSys goLib defaultMarker
          (afterRun parseSample [casePackage]
            (runPackages upperFirstSys goLib defaultMarker [casePackage] []).written) []
        = { written := [("pkg/widget.interface.go",
              "package pkg\n\ntype widgetInterface interface \x7b\n\x7d\n"),
              ("pkg/widget.interface.go",
              "package pkg\n\ntype WidgetInterface interface \x7b\n\x7d\n")],
            outcome := Outcome.finished }
      ∧ lastWrite (runPackages upperFirstSys goLib defaultMarker [casePackage] []).written
          "pkg/widget.interface.go"
        = some "package pkg\n\ntype widgetInterface interface \x7b\n\x7d\n"
      ∧ lastWrite (runPackages lowerFirstSys goLib defaultMarker
          (afterRun parseSample [casePackage]
            (runPackages upperFirstSys goLib defaultMarker [casePackage] []).written) []).written
          "pkg/widget.interface.go"
        = some "package pkg\n\ntype WidgetInterface interface \x7b\n\x7d\n" := by
  refine ⟨rfl, rfl, by decide, by decide, rfl, by decide, by decide, by decide⟩

/-- C11 (amended): for every source directory, fixed order of the files and fixed
order of the loop over the tagged types (the ranks of the environment `S`, the same in
both runs), a second run over the directory as the first run left it writes the same
paths with the same contents, in the same order, and ends the same way as the first
run, provided the files written, as parsed on the second run, carry no tagged type
and no method, and no file written has the path of an input file that carries a
tagged type or a method. -/
theorem C11_second_run (S : Sys) (L : Lib) (markerComment : String) (pkgs : List Package)
    (parseWritten : String → String → File)
    (hgen : ∀ w ∈ (runPackages S L markerComment pkgs []).written,
      File.carries markerComment (parseWritten w.1 w.2) = false)
    (hpath : ∀ w ∈ (runPackages S L markerComment pkgs []).written,
      ∀ P ∈ pkgs, ∀ p ∈ P.Files, p.1 = w.1 → File.carries markerComment p.2 = false) :
    runPackages S L markerComment
        (afterRun parseWritten pkgs (runPackages S L markerComment pkgs []).written) []
      = runPackages S L markerComment pkgs [] := by
  rw [← runPackages_skeleton S L markerComment (afterRun parseWritten pkgs _),
    skeleton_afterRun markerComment parseWritten _ pkgs hgen hpath, runPackages_skeleton]

/-- C11 (amended) on the package of `widgetFiles`: the second run, over the two source
files and the generated `pkg/widget.interface.go`, writes the same file again. -/
theorem C11_second_run_witness :
    afterRun parseSample [widgetPackage]
        (runPackages okSys goLib defaultMarker [widgetPackage] []).written
      = [{ Name := "pkg",
           Files := widgetFiles ++ [("pkg/widget.interface.go", widgetInterfaceNamed)] }]
    ∧ runPackages okSys goLib defaultMarker [widgetPackage] []
      = { written := [("pkg/widget.interface.go",
            "package pkg\n\ntype WidgetInterface interface \x7b\n\tName() string\n\x7d\n")],
          outcome := Outcome.finished }
    ∧ runPackages okSys goLib defaultMarker
        (afterRun parseSample [widgetPackage]
          (runPackages okSys goLib defaultMarker [widgetPackage] []).written) []
      = runPackages okSys goLib defaultMarker [widgetPackage] [] :=
  ⟨rfl, by decide,
    C11_second_run okSys goLib defaultMarker [widgetPackage] parseSample
      (by decide) (by decide)⟩

end GoIface
